import Mathlib

/-!
Verification of the FIFO profit/loss core of the CryptoLedger repository.

The embedding below models calculator.py (class ProfitLossCalculator) and
the Transaction model of models.py.  Python floats are modelled as
rationals, Python dicts as insertion-ordered association lists, and a
datetime by the three observables the calculator actually uses: ordering
for the sort, difference in whole days for the holding period, and the
calendar year for the tax-year filter.
-/

namespace CryptoLedger

/-- A datetime, reduced to the observables used by calculator.py:
comparison for sorting, day difference for holding periods, and the
calendar year for year filtering. -/
structure DateTime where
  days : Int
  year : Int
deriving DecidableEq, Repr, Inhabited

/-- Transaction (models.py): the fields of the dataclass that are relevant
to the calculator, with floats as rationals. -/
structure Transaction where
  id : Option Int
  wallet_id : Int
  transaction_type : String
  crypto_symbol : String
  quantity : ℚ
  price_per_unit : ℚ
  fiat_currency : String
  fee : ℚ
  transaction_date : DateTime
  notes : String
deriving DecidableEq, Repr

/-- Shorthand constructor for transactions in examples: type, symbol,
quantity, price, date, id; the remaining fields take the dataclass
defaults of models.py. -/
def mkTx (ty sym : String) (q p : ℚ) (d : DateTime) (i : Option Int) : Transaction :=
  ⟨i, 0, ty, sym, q, p, "USD", 0, d, ""⟩

/-- An inventory lot: the 4-tuple (quantity, price_per_unit, date, id)
appended by the buy branch of process_transactions. -/
structure Lot where
  quantity : ℚ
  price : ℚ
  date : DateTime
  tx_id : Option Int
deriving DecidableEq, Repr

/-- One realized-gain record, with exactly the keys of the dict built at
calculator.py lines 111-124. -/
structure RealizedGain where
  buy_date : DateTime
  sell_date : DateTime
  buy_price : ℚ
  sell_price : ℚ
  quantity : ℚ
  cost_basis : ℚ
  proceeds : ℚ
  gain : ℚ
  term : String
  holding_period_days : Int
  buy_transaction_id : Option Int
  sell_transaction_id : Option Int
deriving DecidableEq, Repr, Inhabited

/-- A Python dict with string keys, modelled as an insertion-ordered
association list. -/
abbrev Dict (α : Type) : Type := List (String × α)

/-- Lookup of a key (d.get(s) / d[s]). -/
def dictFind {α : Type} : Dict α → String → Option α
  | [], _ => none
  | (k, v) :: rest, s => if k = s then some v else dictFind rest s

/-- Python membership test: s in d. -/
def dictContains {α : Type} (d : Dict α) (s : String) : Bool :=
  (dictFind d s).isSome

/-- Lookup with a default value. -/
def dictGetD {α : Type} (d : Dict α) (s : String) (v : α) : α :=
  (dictFind d s).getD v

/-- Assignment d[s] = v: updates the existing entry in place, otherwise
appends a new entry at the end (Python dicts preserve insertion order). -/
def dictSet {α : Type} : Dict α → String → α → Dict α
  | [], s, v => [(s, v)]
  | (k, w) :: rest, s, v => if k = s then (k, v) :: rest else (k, w) :: dictSet rest s v

/-- The idiom at calculator.py lines 64-67: if s not in d, set d[s] to an
initial value. -/
def dictEnsure {α : Type} (d : Dict α) (s : String) (v : α) : Dict α :=
  if dictContains d s then d else d ++ [(s, v)]

/-- The realized-gain record built at calculator.py lines 101-124 for one
consumed portion of a lot. -/
def mkGain (sellPrice : ℚ) (sellDate : DateTime) (sellId : Option Int)
    (l : Lot) (used : ℚ) : RealizedGain :=
  { buy_date := l.date
    sell_date := sellDate
    buy_price := l.price
    sell_price := sellPrice
    quantity := used
    cost_basis := used * l.price
    proceeds := used * sellPrice
    gain := used * sellPrice - used * l.price
    term := if 365 < sellDate.days - l.date.days then "long" else "short"
    holding_period_days := sellDate.days - l.date.days
    buy_transaction_id := l.tx_id
    sell_transaction_id := sellId }

/-- The FIFO consumption loop of process_transactions (calculator.py lines
84-127): while the remaining quantity is positive and lots remain, consume
the head lot entirely if its quantity is at most the remainder, otherwise
split it in place.  Returns the emitted gains in order, the remaining
lots, and the final remaining quantity (whose positivity triggers the
warning print at lines 129-132). -/
def consumeLots (sellPrice : ℚ) (sellDate : DateTime) (sellId : Option Int) :
    List Lot → ℚ → List RealizedGain × List Lot × ℚ
  | [], rem => ([], [], rem)
  | l :: rest, rem =>
    if rem ≤ 0 then ([], l :: rest, rem)
    else if l.quantity ≤ rem then
      let g := mkGain sellPrice sellDate sellId l l.quantity
      let r := consumeLots sellPrice sellDate sellId rest (rem - l.quantity)
      (g :: r.1, r.2.1, r.2.2)
    else
      ([mkGain sellPrice sellDate sellId l rem],
       { l with quantity := l.quantity - rem } :: rest, 0)

/-- The per-transaction loop body of process_transactions (calculator.py
lines 60-137), acting on the pair (self.inventory, realized_gains). -/
def processTx (st : Dict (List Lot) × Dict (List RealizedGain)) (tx : Transaction) :
    Dict (List Lot) × Dict (List RealizedGain) :=
  let symbol := tx.crypto_symbol
  let inv := dictEnsure st.1 symbol []
  let rg := dictEnsure st.2 symbol []
  if tx.transaction_type = "buy" ∨ tx.transaction_type = "transfer_in" then
    (dictSet inv symbol (dictGetD inv symbol [] ++
      [⟨tx.quantity, tx.price_per_unit, tx.transaction_date, tx.id⟩]), rg)
  else if tx.transaction_type = "sell" ∨ tx.transaction_type = "transfer_out" then
    let r := consumeLots tx.price_per_unit tx.transaction_date tx.id
      (dictGetD inv symbol []) tx.quantity
    (dictSet inv symbol r.2.1, dictSet rg symbol (dictGetD rg symbol [] ++ r.1))
  else
    (inv, rg)

/-- The dict returned by process_transactions (lines 139-142). -/
structure ProcessResult where
  realized_gains : Dict (List RealizedGain)
  inventory : Dict (List Lot)
deriving DecidableEq, Repr

/-- The mutable state of a ProfitLossCalculator object: the stored (sorted)
transaction list and the inventory left over from the last processing
pass. -/
structure ProfitLossCalculator where
  transactions : List Transaction
  inventory : Dict (List Lot)
deriving DecidableEq, Repr

/-- Stable insertion into a list already sorted by date, placing the new
transaction after every element whose date is not greater. -/
def insertByDate (t : Transaction) : List Transaction → List Transaction
  | [] => [t]
  | u :: us =>
    if u.transaction_date.days ≤ t.transaction_date.days then u :: insertByDate t us
    else t :: u :: us

/-- The stable sort by transaction_date performed by the constructor and
load_transactions (calculator.py lines 25 and 45). -/
def sortByDate (txs : List Transaction) : List Transaction :=
  txs.foldl (fun acc t => insertByDate t acc) []

/-- The constructor of ProfitLossCalculator: store the transactions sorted
by date and start with an empty inventory. -/
def ProfitLossCalculator.ofTransactions (txs : List Transaction) : ProfitLossCalculator :=
  ⟨sortByDate txs, []⟩

/-- process_transactions (calculator.py lines 50-142): reset
self.inventory, walk the stored transaction list, and return the realized
gains together with the final inventory; the final inventory is also left
in self.inventory. -/
def ProfitLossCalculator.process_transactions (c : ProfitLossCalculator) :
    ProfitLossCalculator × ProcessResult :=
  let st := c.transactions.foldl processTx ([], [])
  ({ c with inventory := st.1 }, ⟨st.2, st.1⟩)

/-- The value returned by process_transactions on a calculator whose stored
transaction list is txs. -/
def processSorted (txs : List Transaction) : ProcessResult :=
  (ProfitLossCalculator.mk txs []).process_transactions.2

/-- The full pipeline on a raw transaction list: construct the calculator
(which sorts by date) and run process_transactions. -/
def processTransactions (txs : List Transaction) : ProcessResult :=
  (ProfitLossCalculator.ofTransactions txs).process_transactions.2

/-- The dict returned by calculate_realized_gains (lines 174-179). -/
structure RealizedSummary where
  short_term_gains : ℚ
  long_term_gains : ℚ
  total_gains : ℚ
  transactions : List RealizedGain
deriving DecidableEq, Repr

/-- The filter test at calculator.py line 164: the gain is skipped iff the
year argument is truthy (present and nonzero) and the sell year differs
from it. -/
def yearSkips (year : Option Int) (g : RealizedGain) : Bool :=
  match year with
  | none => false
  | some y => decide (y ≠ 0) && decide (g.sell_date.year ≠ y)

/-- The loop body of calculate_realized_gains (lines 162-172) on the
accumulator (short_term_total, long_term_total, transactions). -/
def gainStep (year : Option Int) (acc : ℚ × ℚ × List RealizedGain)
    (g : RealizedGain) : ℚ × ℚ × List RealizedGain :=
  if yearSkips year g then acc
  else if g.term = "short" then (acc.1 + g.gain, acc.2.1, acc.2.2 ++ [g])
  else (acc.1, acc.2.1 + g.gain, acc.2.2 ++ [g])

/-- calculate_realized_gains (calculator.py lines 144-179). -/
def ProfitLossCalculator.calculate_realized_gains (c : ProfitLossCalculator)
    (year : Option Int) : RealizedSummary :=
  let result := c.process_transactions.2
  let acc := result.realized_gains.foldl (fun a p => p.2.foldl (gainStep year) a) (0, 0, [])
  ⟨acc.1, acc.2.1, acc.1 + acc.2.1, acc.2.2⟩

/-- calculate_realized_gains through the full pipeline on a raw list. -/
def calcRealizedGains (txs : List Transaction) (year : Option Int) : RealizedSummary :=
  (ProfitLossCalculator.ofTransactions txs).calculate_realized_gains year

/-- Total quantity of a list of lots. -/
def lotTotalQty (lots : List Lot) : ℚ :=
  (lots.map Lot.quantity).sum

/-- Total cost (quantity times price, summed) of a list of lots. -/
def lotTotalCost (lots : List Lot) : ℚ :=
  (lots.map (fun l => l.quantity * l.price)).sum

/-- One entry of the inventory summary built by get_current_inventory
(lines 196-207). -/
structure InventoryItem where
  quantity : ℚ
  average_cost : ℚ
  lots : List Lot
deriving DecidableEq, Repr

/-- get_current_inventory (calculator.py lines 181-209): reprocess all
transactions, then summarise each symbol with positive total quantity. -/
def ProfitLossCalculator.get_current_inventory (c : ProfitLossCalculator) :
    Dict InventoryItem :=
  let inventory := c.process_transactions.2.inventory
  inventory.foldl (fun acc p =>
    if 0 < lotTotalQty p.2 then
      acc ++ [(p.1, ⟨lotTotalQty p.2, lotTotalCost p.2 / lotTotalQty p.2, p.2⟩)]
    else acc) []

/-- One entry of the by-symbol dict built by calculate_unrealized_gains
(lines 235-242). -/
structure UnrealizedItem where
  quantity : ℚ
  average_cost : ℚ
  current_price : ℚ
  market_value : ℚ
  cost_basis : ℚ
  unrealized_gain : ℚ
deriving DecidableEq, Repr

/-- The dict returned by calculate_unrealized_gains (lines 246-249). -/
structure UnrealizedResult where
  by_symbol : Dict UnrealizedItem
  total_unrealized_gain : ℚ
deriving DecidableEq, Repr

/-- The loop body of calculate_unrealized_gains (lines 225-244): symbols
absent from the price map are skipped. -/
def unrealizedStep (prices : Dict ℚ) (acc : Dict UnrealizedItem × ℚ)
    (p : String × InventoryItem) : Dict UnrealizedItem × ℚ :=
  match dictFind prices p.1 with
  | some price =>
    (acc.1 ++ [(p.1, ⟨p.2.quantity, p.2.average_cost, price,
        p.2.quantity * price, p.2.quantity * p.2.average_cost,
        p.2.quantity * price - p.2.quantity * p.2.average_cost⟩)],
      acc.2 + (p.2.quantity * price - p.2.quantity * p.2.average_cost))
  | none => acc

/-- calculate_unrealized_gains (calculator.py lines 211-249). -/
def ProfitLossCalculator.calculate_unrealized_gains (c : ProfitLossCalculator)
    (prices : Dict ℚ) : UnrealizedResult :=
  let inv := c.get_current_inventory
  let acc := inv.foldl (unrealizedStep prices) ([], 0)
  ⟨acc.1, acc.2⟩

/-- calculate_unrealized_gains through the full pipeline on a raw list. -/
def calcUnrealizedGains (txs : List Transaction) (prices : Dict ℚ) : UnrealizedResult :=
  (ProfitLossCalculator.ofTransactions txs).calculate_unrealized_gains prices

/-- Total quantity of the emitted gain records. -/
def gainTotalQty (gs : List RealizedGain) : ℚ :=
  (gs.map RealizedGain.quantity).sum

/-- The held quantity of a symbol in an inventory dict. -/
def heldQty (inv : Dict (List Lot)) (s : String) : ℚ :=
  lotTotalQty (dictGetD inv s [])

/-- The remaining unconsumed quantity left by one transaction's FIFO loop,
an observer instrumenting the loop of calculator.py lines 84-127: this is
the value of remaining_qty whose positivity triggers the warning print at
lines 129-132.  Zero for non-disposal transactions. -/
def txShortfall (inv : Dict (List Lot)) (tx : Transaction) : ℚ :=
  if tx.transaction_type = "sell" ∨ tx.transaction_type = "transfer_out" then
    (consumeLots tx.price_per_unit tx.transaction_date tx.id
      (dictGetD inv tx.crypto_symbol []) tx.quantity).2.2
  else 0

/-- The per-transaction shortfalls along a processing pass started in a
given state. -/
def shortfallList : Dict (List Lot) × Dict (List RealizedGain) → List Transaction → List ℚ
  | _, [] => []
  | st, tx :: rest => txShortfall st.1 tx :: shortfallList (processTx st tx) rest

/-- The total unsatisfied quantity over a full pipeline run (sorting, then
processing from the empty state). -/
def totalShortfall (txs : List Transaction) : ℚ :=
  (shortfallList ([], []) (sortByDate txs)).sum

/-- No disposal in the pipeline run requests more than is held when it is
processed. -/
def noShortfall (txs : List Transaction) : Prop :=
  ∀ q ∈ shortfallList ([], []) (sortByDate txs), q ≤ 0

/-- Sum of the quantities of buy and transfer_in transactions of a symbol. -/
def buyQty (s : String) (txs : List Transaction) : ℚ :=
  ((txs.filter (fun t =>
    (t.transaction_type == "buy" || t.transaction_type == "transfer_in") &&
      t.crypto_symbol == s)).map Transaction.quantity).sum

/-- Sum of the quantities of sell and transfer_out transactions of a symbol. -/
def sellQty (s : String) (txs : List Transaction) : ℚ :=
  ((txs.filter (fun t =>
    (t.transaction_type == "sell" || t.transaction_type == "transfer_out") &&
      t.crypto_symbol == s)).map Transaction.quantity).sum

/-- The realized gains of a processing pass flattened in dict order, as
iterated by calculate_realized_gains. -/
def allGains : Dict (List RealizedGain) → List RealizedGain
  | [] => []
  | p :: rest => p.2 ++ allGains rest

/-- A transaction with its fee replaced. -/
def withFee (f : ℚ) (t : Transaction) : Transaction :=
  { t with fee := f }

/-- The ordered realized-gain records of one symbol after a full pipeline
run. -/
def gainsFor (txs : List Transaction) (s : String) : List RealizedGain :=
  dictGetD (processTransactions txs).realized_gains s []

/-- Example date stamps used by the concrete runs below. -/
def day0 : DateTime := ⟨0, 2022⟩

/-- A second example date, later in the same year. -/
def day151 : DateTime := ⟨151, 2022⟩

/-- A third example date, 365 days after day0, in the following year. -/
def day365 : DateTime := ⟨365, 2023⟩

/-- A fourth example date, 366 days after day0. -/
def day366 : DateTime := ⟨366, 2023⟩

/-- Oversell run: buy 3 ETH, then sell 5 ETH (shortfall of 2). -/
def oversellTxs : List Transaction :=
  [mkTx "buy" "ETH" 3 100 day0 (some 1),
   mkTx "sell" "ETH" 5 200 day151 (some 2)]

/-- Exact-sell run: buy 3 ETH, then sell exactly the 3 ETH held. -/
def exactSellTxs : List Transaction :=
  [mkTx "buy" "ETH" 3 100 day0 (some 1),
   mkTx "sell" "ETH" 3 200 day151 (some 2)]

/-- Partial-sell run: buy 3 ETH, then sell 2 ETH. -/
def partialSellTxs : List Transaction :=
  [mkTx "buy" "ETH" 3 100 day0 (some 1),
   mkTx "sell" "ETH" 2 200 day151 (some 2)]

/-- Boundary run: buy 1 BTC, sell it 365 days later, and buy and sell
1 LTC 366 days apart. -/
def boundaryTxs : List Transaction :=
  [mkTx "buy" "BTC" 1 100 day0 (some 1),
   mkTx "buy" "LTC" 1 50 day0 (some 2),
   mkTx "sell" "BTC" 1 200 day365 (some 3),
   mkTx "sell" "LTC" 1 60 day366 (some 4)]

/-- An exchange transaction used in concrete runs. -/
def exchangeTx : Transaction := mkTx "exchange" "BTC" 1 10 day0 (some 9)

/-- A concrete mid-processing state: 3 ETH held in one lot, no gains yet. -/
def ethLotState : Dict (List Lot) × Dict (List RealizedGain) :=
  ([("ETH", [⟨3, 100, day0, some 1⟩])], [])

/-- A concrete sale of 2 ETH. -/
def sellTwoTx : Transaction := mkTx "sell" "ETH" 2 200 day151 (some 2)

/-- A concrete sale of 5 ETH. -/
def sellFiveTx : Transaction := mkTx "sell" "ETH" 5 200 day151 (some 2)

/-- The realized gain emitted for the BTC sale of boundaryTxs: held exactly
365 days. -/
def btcGain365 : RealizedGain :=
  ⟨day0, day365, 100, 200, 1, 100, 200, 100, "short", 365, some 1, some 3⟩

/-- The realized gain emitted for the LTC sale of boundaryTxs: held 366
days. -/
def ltcGain366 : RealizedGain :=
  ⟨day0, day366, 50, 60, 1, 50, 60, 10, "long", 366, some 2, some 4⟩

/-- The FIFO scenario of the spec: two BTC buy lots at different dates,
then a sale of 1.5 BTC. -/
def fifoTxs : List Transaction :=
  [mkTx "buy" "BTC" 1 10000 day0 (some 1),
   mkTx "buy" "BTC" 1 20000 day151 (some 2),
   mkTx "sell" "BTC" (3/2) 30000 day365 (some 3)]

/-- A price map that prices BTC only. -/
def btcOnlyPrices : Dict ℚ := [("BTC", 5)]

/-- Well-formedness of a realized-gain record: the derived fields are the
ones computed at calculator.py lines 101-108 from quantity, prices and
dates alone. -/
def GainWF (g : RealizedGain) : Prop :=
  g.cost_basis = g.quantity * g.buy_price ∧
  g.proceeds = g.quantity * g.sell_price ∧
  g.gain = g.proceeds - g.cost_basis ∧
  g.term = (if 365 < g.holding_period_days then "long" else "short")

/-- All lots of an inventory dict have positive quantity. -/
def InvWF (inv : Dict (List Lot)) : Prop :=
  ∀ p ∈ inv, ∀ l ∈ p.2, 0 < l.quantity

/-- All gain records of a realized-gains dict are well-formed. -/
def GainsDictWF (rg : Dict (List RealizedGain)) : Prop :=
  ∀ p ∈ rg, ∀ g ∈ p.2, GainWF g

theorem lotTotalQty_nil : lotTotalQty [] = 0 := rfl

theorem lotTotalQty_cons (l : Lot) (ls : List Lot) :
    lotTotalQty (l :: ls) = l.quantity + lotTotalQty ls := by
  simp [lotTotalQty]

theorem lotTotalQty_append (ls ms : List Lot) :
    lotTotalQty (ls ++ ms) = lotTotalQty ls + lotTotalQty ms := by
  simp [lotTotalQty]

theorem lotTotalQty_nonneg (ls : List Lot) (h : ∀ l ∈ ls, 0 < l.quantity) :
    0 ≤ lotTotalQty ls := by
  induction ls with
  | nil => simp [lotTotalQty]
  | cons l ls ih =>
    rw [lotTotalQty_cons]
    have h1 := h l (List.mem_cons_self l ls)
    have h2 := ih (fun x hx => h x (List.mem_cons_of_mem l hx))
    linarith

theorem gainTotalQty_nil : gainTotalQty [] = 0 := rfl

theorem gainTotalQty_cons (g : RealizedGain) (gs : List RealizedGain) :
    gainTotalQty (g :: gs) = g.quantity + gainTotalQty gs := by
  simp [gainTotalQty]

theorem dictFind_append {α : Type} (d e : Dict α) (k : String) :
    dictFind (d ++ e) k =
      (match dictFind d k with | some v => some v | none => dictFind e k) := by
  induction d with
  | nil => simp [dictFind]
  | cons p rest ih =>
    by_cases h : p.1 = k
    · simp [dictFind, h]
    · simp [dictFind, h, ih]

theorem dictContains_false {α : Type} (d : Dict α) (s : String)
    (h : dictContains d s = false) : dictFind d s = none := by
  unfold dictContains at h
  exact Option.not_isSome_iff_eq_none.mp (by simp [h])

theorem dictGetD_ensure {α : Type} (d : Dict α) (s k : String) (v : α) :
    dictGetD (dictEnsure d s v) k v = dictGetD d k v := by
  unfold dictEnsure
  by_cases h : dictContains d s
  · simp [h]
  · have hn : dictFind d s = none := dictContains_false d s (by simpa using h)
    simp only [h, if_false, Bool.false_eq_true]
    unfold dictGetD
    rw [dictFind_append]
    by_cases hk : k = s
    · subst hk
      simp [hn, dictFind]
    · cases hfind : dictFind d k with
      | none => simp [dictFind, Ne.symm hk]
      | some w => simp

theorem dictFind_ensure_ne {α : Type} (d : Dict α) (s k : String) (v : α)
    (h : k ≠ s) : dictFind (dictEnsure d s v) k = dictFind d k := by
  unfold dictEnsure
  by_cases hc : dictContains d s
  · simp [hc]
  · simp only [hc, Bool.false_eq_true, if_false]
    rw [dictFind_append]
    cases hfind : dictFind d k with
    | none => simp [dictFind, Ne.symm h]
    | some w => simp

theorem dictFind_set_self {α : Type} (d : Dict α) (s : String) (v : α) :
    dictFind (dictSet d s v) s = some v := by
  induction d with
  | nil => simp [dictSet, dictFind]
  | cons p rest ih =>
    by_cases h : p.1 = s
    · simp [dictSet, h, dictFind]
    · simp [dictSet, h, dictFind, ih]

theorem dictFind_set_ne {α : Type} (d : Dict α) (s k : String) (v : α)
    (h : k ≠ s) : dictFind (dictSet d s v) k = dictFind d k := by
  induction d with
  | nil => simp [dictSet, dictFind, Ne.symm h]
  | cons p rest ih =>
    by_cases hp : p.1 = s
    · subst hp
      simp [dictSet, dictFind, Ne.symm h]
    · by_cases hk : p.1 = k
      · simp [dictSet, hp, dictFind, hk, h]
      · simp [dictSet, hp, dictFind, hk, ih]

theorem dictGetD_set_self {α : Type} (d : Dict α) (s : String) (v w : α) :
    dictGetD (dictSet d s v) s w = v := by
  simp [dictGetD, dictFind_set_self]

theorem dictGetD_set_ne {α : Type} (d : Dict α) (s k : String) (v w : α)
    (h : k ≠ s) : dictGetD (dictSet d s v) k w = dictGetD d k w := by
  simp [dictGetD, dictFind_set_ne d s k v h]

theorem mem_dictSet {α : Type} (d : Dict α) (s : String) (v : α)
    (p : String × α) (hp : p ∈ dictSet d s v) : p ∈ d ∨ p.2 = v := by
  induction d with
  | nil =>
    simp [dictSet] at hp
    right; rw [hp]
  | cons q rest ih =>
    by_cases h : q.1 = s
    · simp only [dictSet, h, if_pos] at hp
      rcases List.mem_cons.mp hp with h1 | h1
      · right; rw [h1]
      · left; exact List.mem_cons_of_mem q h1
    · simp only [dictSet, h, if_neg, not_false_iff] at hp
      rcases List.mem_cons.mp hp with h1 | h1
      · left; rw [h1]; exact List.mem_cons_self q rest
      · rcases ih h1 with h2 | h2
        · left; exact List.mem_cons_of_mem q h2
        · right; exact h2

theorem mem_dictEnsure {α : Type} (d : Dict α) (s : String) (v : α)
    (p : String × α) (hp : p ∈ dictEnsure d s v) : p ∈ d ∨ p = (s, v) := by
  unfold dictEnsure at hp
  by_cases h : dictContains d s
  · rw [if_pos h] at hp
    left; exact hp
  · rw [if_neg h] at hp
    rcases List.mem_append.mp hp with h1 | h1
    · left; exact h1
    · right; simpa using h1

theorem consumeLots_nonpos (sp : ℚ) (sd : DateTime) (si : Option Int)
    (lots : List Lot) (rem : ℚ) (h : rem ≤ 0) :
    consumeLots sp sd si lots rem = ([], lots, rem) := by
  cases lots with
  | nil => rfl
  | cons l rest => simp [consumeLots, h]

theorem consumeLots_conservation (sp : ℚ) (sd : DateTime) (si : Option Int) :
    ∀ (lots : List Lot) (rem : ℚ),
      lotTotalQty (consumeLots sp sd si lots rem).2.1 +
        gainTotalQty (consumeLots sp sd si lots rem).1 = lotTotalQty lots ∧
      (consumeLots sp sd si lots rem).2.2 =
        rem - gainTotalQty (consumeLots sp sd si lots rem).1 := by
  intro lots
  induction lots with
  | nil =>
    intro rem
    simp [consumeLots, gainTotalQty_nil, lotTotalQty_nil]
  | cons l rest ih =>
    intro rem
    by_cases h0 : rem ≤ 0
    · rw [consumeLots_nonpos sp sd si _ rem h0]
      simp [gainTotalQty_nil]
    · by_cases hfull : l.quantity ≤ rem
      · have hr := ih (rem - l.quantity)
        simp only [consumeLots, if_neg h0, if_pos hfull]
        rw [gainTotalQty_cons, lotTotalQty_cons]
        constructor
        · have : (mkGain sp sd si l l.quantity).quantity = l.quantity := rfl
          rw [this]
          linarith [hr.1]
        · have : (mkGain sp sd si l l.quantity).quantity = l.quantity := rfl
          rw [this]
          rw [hr.2]
          ring
      · simp only [consumeLots, if_neg h0, if_neg hfull]
        rw [gainTotalQty_cons, gainTotalQty_nil, lotTotalQty_cons, lotTotalQty_cons]
        have : (mkGain sp sd si l rem).quantity = rem := rfl
        rw [this]
        constructor
        · simp
          ring
        · simp

theorem consumeLots_posLots (sp : ℚ) (sd : DateTime) (si : Option Int) :
    ∀ (lots : List Lot) (rem : ℚ), (∀ l ∈ lots, 0 < l.quantity) →
      ∀ l ∈ (consumeLots sp sd si lots rem).2.1, 0 < l.quantity := by
  intro lots
  induction lots with
  | nil =>
    intro rem _ l hl
    simp [consumeLots] at hl
  | cons x rest ih =>
    intro rem hpos l hl
    by_cases h0 : rem ≤ 0
    · rw [consumeLots_nonpos sp sd si _ rem h0] at hl
      exact hpos l hl
    · by_cases hfull : x.quantity ≤ rem
      · simp only [consumeLots, if_neg h0, if_pos hfull] at hl
        exact ih (rem - x.quantity) (fun y hy => hpos y (List.mem_cons_of_mem x hy)) l hl
      · simp only [consumeLots, if_neg h0, if_neg hfull] at hl
        rcases List.mem_cons.mp hl with h1 | h1
        · rw [h1]
          have : rem < x.quantity := lt_of_not_le hfull
          simp only []
          linarith
        · exact hpos l (List.mem_cons_of_mem x h1)

theorem consumeLots_rem (sp : ℚ) (sd : DateTime) (si : Option Int) :
    ∀ (lots : List Lot) (rem : ℚ), 0 < rem → (∀ l ∈ lots, 0 < l.quantity) →
      (consumeLots sp sd si lots rem).2.2 = max 0 (rem - lotTotalQty lots) := by
  intro lots
  induction lots with
  | nil =>
    intro rem hrem _
    simp [consumeLots, lotTotalQty_nil]
    linarith
  | cons x rest ih =>
    intro rem hrem hpos
    have h0 : ¬ rem ≤ 0 := not_le.mpr hrem
    have hrest : ∀ l ∈ rest, 0 < l.quantity :=
      fun y hy => hpos y (List.mem_cons_of_mem x hy)
    have hrestnn : 0 ≤ lotTotalQty rest := lotTotalQty_nonneg rest hrest
    by_cases hfull : x.quantity ≤ rem
    · simp only [consumeLots, if_neg h0, if_pos hfull]
      rw [lotTotalQty_cons]
      by_cases h1 : rem - x.quantity ≤ 0
      · rw [consumeLots_nonpos sp sd si rest _ h1]
        have hx : rem - x.quantity = 0 := le_antisymm h1 (by linarith)
        simp only [hx]
        have : rem - (x.quantity + lotTotalQty rest) ≤ 0 := by linarith
        rw [max_eq_left this]
      · have := ih (rem - x.quantity) (by linarith) hrest
        rw [this]
        congr 1
        ring
    · simp only [consumeLots, if_neg h0, if_neg hfull]
      have hx : rem < x.quantity := lt_of_not_le hfull
      rw [lotTotalQty_cons]
      have : rem - (x.quantity + lotTotalQty rest) ≤ 0 := by linarith
      rw [max_eq_left this]

theorem consumeLots_exhaust (sp : ℚ) (sd : DateTime) (si : Option Int) :
    ∀ (lots : List Lot) (rem : ℚ), 0 < rem → (∀ l ∈ lots, 0 < l.quantity) →
      lotTotalQty lots ≤ rem → (consumeLots sp sd si lots rem).2.1 = [] := by
  intro lots
  induction lots with
  | nil =>
    intro rem hrem _ _
    simp [consumeLots]
  | cons x rest ih =>
    intro rem hrem hpos htot
    have h0 : ¬ rem ≤ 0 := not_le.mpr hrem
    have hrest : ∀ l ∈ rest, 0 < l.quantity :=
      fun y hy => hpos y (List.mem_cons_of_mem x hy)
    have hrestnn : 0 ≤ lotTotalQty rest := lotTotalQty_nonneg rest hrest
    rw [lotTotalQty_cons] at htot
    have hfull : x.quantity ≤ rem := by linarith
    simp only [consumeLots, if_neg h0, if_pos hfull]
    cases rest with
    | nil => simp [consumeLots]
    | cons y rs =>
      have hy : 0 < y.quantity := hrest y (List.mem_cons_self y rs)
      have hrs : 0 ≤ lotTotalQty rs :=
        lotTotalQty_nonneg rs (fun z hz => hrest z (List.mem_cons_of_mem y hz))
      rw [lotTotalQty_cons] at hrestnn htot
      exact ih (rem - x.quantity) (by linarith) hrest (by rw [lotTotalQty_cons]; linarith)

theorem mkGain_wf (sp : ℚ) (sd : DateTime) (si : Option Int) (l : Lot) (u : ℚ) :
    GainWF (mkGain sp sd si l u) := by
  refine ⟨rfl, rfl, ?_, rfl⟩
  simp [mkGain]

theorem consumeLots_gains_wf (sp : ℚ) (sd : DateTime) (si : Option Int) :
    ∀ (lots : List Lot) (rem : ℚ) (g : RealizedGain),
      g ∈ (consumeLots sp sd si lots rem).1 → GainWF g := by
  intro lots
  induction lots with
  | nil =>
    intro rem g hg
    simp [consumeLots] at hg
  | cons x rest ih =>
    intro rem g hg
    by_cases h0 : rem ≤ 0
    · rw [consumeLots_nonpos sp sd si _ rem h0] at hg
      simp at hg
    · by_cases hfull : x.quantity ≤ rem
      · simp only [consumeLots, if_neg h0, if_pos hfull] at hg
        rcases List.mem_cons.mp hg with h1 | h1
        · rw [h1]; exact mkGain_wf sp sd si x x.quantity
        · exact ih (rem - x.quantity) g h1
      · simp only [consumeLots, if_neg h0, if_neg hfull] at hg
        rcases List.mem_cons.mp hg with h1 | h1
        · rw [h1]; exact mkGain_wf sp sd si x rem
        · simp at h1

theorem dictFind_some_mem {α : Type} (d : Dict α) (s : String) (v : α)
    (h : dictFind d s = some v) : ∃ k, (k, v) ∈ d := by
  induction d with
  | nil => simp [dictFind] at h
  | cons p rest ih =>
    by_cases hp : p.1 = s
    · simp [dictFind, hp] at h
      exact ⟨p.1, by rw [← h]; exact List.mem_cons_self p rest⟩
    · simp [dictFind, hp] at h
      rcases ih h with ⟨k, hk⟩
      exact ⟨k, List.mem_cons_of_mem p hk⟩

theorem sell_not_buy (tx : Transaction)
    (h : tx.transaction_type = "sell" ∨ tx.transaction_type = "transfer_out") :
    ¬ (tx.transaction_type = "buy" ∨ tx.transaction_type = "transfer_in") := by
  rcases h with h | h <;> rw [h] <;> decide

theorem processTx_buy (st : Dict (List Lot) × Dict (List RealizedGain))
    (tx : Transaction)
    (h : tx.transaction_type = "buy" ∨ tx.transaction_type = "transfer_in") :
    processTx st tx =
      (dictSet (dictEnsure st.1 tx.crypto_symbol []) tx.crypto_symbol
        (dictGetD st.1 tx.crypto_symbol [] ++
          [⟨tx.quantity, tx.price_per_unit, tx.transaction_date, tx.id⟩]),
       dictEnsure st.2 tx.crypto_symbol []) := by
  simp only [processTx, if_pos h, dictGetD_ensure]

theorem processTx_sell (st : Dict (List Lot) × Dict (List RealizedGain))
    (tx : Transaction)
    (h : tx.transaction_type = "sell" ∨ tx.transaction_type = "transfer_out") :
    processTx st tx =
      (dictSet (dictEnsure st.1 tx.crypto_symbol []) tx.crypto_symbol
        (consumeLots tx.price_per_unit tx.transaction_date tx.id
          (dictGetD st.1 tx.crypto_symbol []) tx.quantity).2.1,
       dictSet (dictEnsure st.2 tx.crypto_symbol []) tx.crypto_symbol
        (dictGetD st.2 tx.crypto_symbol [] ++
          (consumeLots tx.price_per_unit tx.transaction_date tx.id
            (dictGetD st.1 tx.crypto_symbol []) tx.quantity).1)) := by
  simp only [processTx, if_neg (sell_not_buy tx h), if_pos h, dictGetD_ensure]

theorem processTx_other (st : Dict (List Lot) × Dict (List RealizedGain))
    (tx : Transaction)
    (h1 : ¬ (tx.transaction_type = "buy" ∨ tx.transaction_type = "transfer_in"))
    (h2 : ¬ (tx.transaction_type = "sell" ∨ tx.transaction_type = "transfer_out")) :
    processTx st tx =
      (dictEnsure st.1 tx.crypto_symbol [], dictEnsure st.2 tx.crypto_symbol []) := by
  simp only [processTx, if_neg h1, if_neg h2]

theorem invWF_getD (inv : Dict (List Lot)) (s : String) (h : InvWF inv) :
    ∀ l ∈ dictGetD inv s [], 0 < l.quantity := by
  intro l hl
  unfold dictGetD at hl
  cases hf : dictFind inv s with
  | none => rw [hf] at hl; simp at hl
  | some v =>
    rw [hf] at hl
    simp at hl
    rcases dictFind_some_mem inv s v hf with ⟨k, hk⟩
    exact h (k, v) hk l hl

theorem gainsWF_getD (rg : Dict (List RealizedGain)) (s : String)
    (h : GainsDictWF rg) : ∀ g ∈ dictGetD rg s [], GainWF g := by
  intro g hg
  unfold dictGetD at hg
  cases hf : dictFind rg s with
  | none => rw [hf] at hg; simp at hg
  | some v =>
    rw [hf] at hg
    simp at hg
    rcases dictFind_some_mem rg s v hf with ⟨k, hk⟩
    exact h (k, v) hk g hg

theorem heldQty_buy (st : Dict (List Lot) × Dict (List RealizedGain))
    (tx : Transaction) (s : String)
    (h : tx.transaction_type = "buy" ∨ tx.transaction_type = "transfer_in") :
    heldQty (processTx st tx).1 s =
      heldQty st.1 s + (if tx.crypto_symbol = s then tx.quantity else 0) := by
  rw [processTx_buy st tx h]
  by_cases hs : tx.crypto_symbol = s
  · subst hs
    unfold heldQty
    rw [dictGetD_set_self, lotTotalQty_append, lotTotalQty_cons, lotTotalQty_nil]
    simp
  · unfold heldQty
    rw [dictGetD_set_ne _ _ _ _ _ (Ne.symm hs), dictGetD_ensure]
    simp [hs]

theorem heldQty_sell_noShort (st : Dict (List Lot) × Dict (List RealizedGain))
    (tx : Transaction) (s : String)
    (h : tx.transaction_type = "sell" ∨ tx.transaction_type = "transfer_out")
    (hq : 0 < tx.quantity)
    (hpos : ∀ l ∈ dictGetD st.1 tx.crypto_symbol [], 0 < l.quantity)
    (hns : txShortfall st.1 tx ≤ 0) :
    heldQty (processTx st tx).1 s =
      heldQty st.1 s - (if tx.crypto_symbol = s then tx.quantity else 0) := by
  have hsf : txShortfall st.1 tx =
      (consumeLots tx.price_per_unit tx.transaction_date tx.id
        (dictGetD st.1 tx.crypto_symbol []) tx.quantity).2.2 := by
    unfold txShortfall
    rw [if_pos h]
  have hrem := consumeLots_rem tx.price_per_unit tx.transaction_date tx.id
    (dictGetD st.1 tx.crypto_symbol []) tx.quantity hq hpos
  have hcons := consumeLots_conservation tx.price_per_unit tx.transaction_date tx.id
    (dictGetD st.1 tx.crypto_symbol []) tx.quantity
  have hzero : (consumeLots tx.price_per_unit tx.transaction_date tx.id
      (dictGetD st.1 tx.crypto_symbol []) tx.quantity).2.2 = 0 := by
    rw [hsf] at hns
    rw [hrem] at hns ⊢
    have : 0 ≤ max 0 (tx.quantity - lotTotalQty (dictGetD st.1 tx.crypto_symbol [])) :=
      le_max_left 0 _
    linarith
  have hgq : gainTotalQty (consumeLots tx.price_per_unit tx.transaction_date tx.id
      (dictGetD st.1 tx.crypto_symbol []) tx.quantity).1 = tx.quantity := by
    have h2 := hcons.2
    rw [hzero] at h2
    linarith
  rw [processTx_sell st tx h]
  by_cases hs : tx.crypto_symbol = s
  · subst hs
    unfold heldQty
    rw [dictGetD_set_self]
    have h1 := hcons.1
    rw [hgq] at h1
    simp only [eq_self_iff_true, if_true]
    linarith
  · unfold heldQty
    rw [dictGetD_set_ne _ _ _ _ _ (Ne.symm hs), dictGetD_ensure]
    simp [hs]

theorem heldQty_other (st : Dict (List Lot) × Dict (List RealizedGain))
    (tx : Transaction) (s : String)
    (h1 : ¬ (tx.transaction_type = "buy" ∨ tx.transaction_type = "transfer_in"))
    (h2 : ¬ (tx.transaction_type = "sell" ∨ tx.transaction_type = "transfer_out")) :
    heldQty (processTx st tx).1 s = heldQty st.1 s := by
  rw [processTx_other st tx h1 h2]
  unfold heldQty
  rw [dictGetD_ensure]

theorem processTx_invWF (st : Dict (List Lot) × Dict (List RealizedGain))
    (tx : Transaction) (hq : 0 < tx.quantity) (h : InvWF st.1) :
    InvWF (processTx st tx).1 := by
  by_cases hb : tx.transaction_type = "buy" ∨ tx.transaction_type = "transfer_in"
  · rw [processTx_buy st tx hb]
    intro p hp l hl
    rcases mem_dictSet _ _ _ p hp with h1 | h1
    · rcases mem_dictEnsure _ _ _ p h1 with h2 | h2
      · exact h p h2 l hl
      · rw [h2] at hl; simp at hl
    · rw [h1] at hl
      rcases List.mem_append.mp hl with h2 | h2
      · exact invWF_getD st.1 tx.crypto_symbol h l h2
      · simp at h2
        rw [h2]
        exact hq
  · by_cases hs : tx.transaction_type = "sell" ∨ tx.transaction_type = "transfer_out"
    · rw [processTx_sell st tx hs]
      intro p hp l hl
      rcases mem_dictSet _ _ _ p hp with h1 | h1
      · rcases mem_dictEnsure _ _ _ p h1 with h2 | h2
        · exact h p h2 l hl
        · rw [h2] at hl; simp at hl
      · rw [h1] at hl
        exact consumeLots_posLots tx.price_per_unit tx.transaction_date tx.id
          (dictGetD st.1 tx.crypto_symbol []) tx.quantity
          (invWF_getD st.1 tx.crypto_symbol h) l hl
    · rw [processTx_other st tx hb hs]
      intro p hp l hl
      rcases mem_dictEnsure _ _ _ p hp with h2 | h2
      · exact h p h2 l hl
      · rw [h2] at hl; simp at hl

theorem processTx_gainsWF (st : Dict (List Lot) × Dict (List RealizedGain))
    (tx : Transaction) (h : GainsDictWF st.2) : GainsDictWF (processTx st tx).2 := by
  by_cases hb : tx.transaction_type = "buy" ∨ tx.transaction_type = "transfer_in"
  · rw [processTx_buy st tx hb]
    intro p hp g hg
    rcases mem_dictEnsure _ _ _ p hp with h2 | h2
    · exact h p h2 g hg
    · rw [h2] at hg; simp at hg
  · by_cases hs : tx.transaction_type = "sell" ∨ tx.transaction_type = "transfer_out"
    · rw [processTx_sell st tx hs]
      intro p hp g hg
      rcases mem_dictSet _ _ _ p hp with h1 | h1
      · rcases mem_dictEnsure _ _ _ p h1 with h2 | h2
        · exact h p h2 g hg
        · rw [h2] at hg; simp at hg
      · rw [h1] at hg
        rcases List.mem_append.mp hg with h2 | h2
        · exact gainsWF_getD st.2 tx.crypto_symbol h g h2
        · exact consumeLots_gains_wf tx.price_per_unit tx.transaction_date tx.id
            (dictGetD st.1 tx.crypto_symbol []) tx.quantity g h2
    · rw [processTx_other st tx hb hs]
      intro p hp g hg
      rcases mem_dictEnsure _ _ _ p hp with h2 | h2
      · exact h p h2 g hg
      · rw [h2] at hg; simp at hg

theorem foldl_invWF : ∀ (txs : List Transaction)
    (st : Dict (List Lot) × Dict (List RealizedGain)),
    (∀ t ∈ txs, 0 < t.quantity) → InvWF st.1 →
    InvWF (txs.foldl processTx st).1 := by
  intro txs
  induction txs with
  | nil => intro st _ h; exact h
  | cons tx rest ih =>
    intro st hq h
    rw [List.foldl_cons]
    exact ih (processTx st tx)
      (fun t ht => hq t (List.mem_cons_of_mem tx ht))
      (processTx_invWF st tx (hq tx (List.mem_cons_self tx rest)) h)

theorem foldl_gainsWF : ∀ (txs : List Transaction)
    (st : Dict (List Lot) × Dict (List RealizedGain)),
    GainsDictWF st.2 → GainsDictWF (txs.foldl processTx st).2 := by
  intro txs
  induction txs with
  | nil => intro st h; exact h
  | cons tx rest ih =>
    intro st h
    rw [List.foldl_cons]
    exact ih (processTx st tx) (processTx_gainsWF st tx h)

theorem buy_not_sell (tx : Transaction)
    (h : tx.transaction_type = "buy" ∨ tx.transaction_type = "transfer_in") :
    ¬ (tx.transaction_type = "sell" ∨ tx.transaction_type = "transfer_out") := by
  rcases h with h | h <;> rw [h] <;> decide

theorem buyCond_iff (tx : Transaction) (s : String) :
    (((tx.transaction_type == "buy" || tx.transaction_type == "transfer_in") &&
      tx.crypto_symbol == s) = true) ↔
    ((tx.transaction_type = "buy" ∨ tx.transaction_type = "transfer_in") ∧
      tx.crypto_symbol = s) := by
  simp

theorem sellCond_iff (tx : Transaction) (s : String) :
    (((tx.transaction_type == "sell" || tx.transaction_type == "transfer_out") &&
      tx.crypto_symbol == s) = true) ↔
    ((tx.transaction_type = "sell" ∨ tx.transaction_type = "transfer_out") ∧
      tx.crypto_symbol = s) := by
  simp

theorem buyQty_cons (s : String) (tx : Transaction) (rest : List Transaction) :
    buyQty s (tx :: rest) =
      (if (tx.transaction_type = "buy" ∨ tx.transaction_type = "transfer_in") ∧
          tx.crypto_symbol = s then tx.quantity else 0) + buyQty s rest := by
  unfold buyQty
  rw [List.filter_cons]
  by_cases h : (tx.transaction_type = "buy" ∨ tx.transaction_type = "transfer_in") ∧
      tx.crypto_symbol = s
  · rw [if_pos ((buyCond_iff tx s).mpr h), if_pos h, List.map_cons, List.sum_cons]
  · rw [if_neg (fun hb => h ((buyCond_iff tx s).mp hb)), if_neg h, zero_add]

theorem sellQty_cons (s : String) (tx : Transaction) (rest : List Transaction) :
    sellQty s (tx :: rest) =
      (if (tx.transaction_type = "sell" ∨ tx.transaction_type = "transfer_out") ∧
          tx.crypto_symbol = s then tx.quantity else 0) + sellQty s rest := by
  unfold sellQty
  rw [List.filter_cons]
  by_cases h : (tx.transaction_type = "sell" ∨ tx.transaction_type = "transfer_out") ∧
      tx.crypto_symbol = s
  · rw [if_pos ((sellCond_iff tx s).mpr h), if_pos h, List.map_cons, List.sum_cons]
  · rw [if_neg (fun hb => h ((sellCond_iff tx s).mp hb)), if_neg h, zero_add]

theorem process_heldQty : ∀ (txs : List Transaction)
    (st : Dict (List Lot) × Dict (List RealizedGain)),
    (∀ t ∈ txs, 0 < t.quantity) → InvWF st.1 →
    (∀ q ∈ shortfallList st txs, q ≤ 0) →
    ∀ s, heldQty (txs.foldl processTx st).1 s =
      heldQty st.1 s + buyQty s txs - sellQty s txs := by
  intro txs
  induction txs with
  | nil =>
    intro st _ _ _ s
    simp [buyQty, sellQty]
  | cons tx rest ih =>
    intro st hq hwf hns s
    rw [List.foldl_cons]
    have hq0 : 0 < tx.quantity := hq tx (List.mem_cons_self tx rest)
    have hq2 : ∀ t ∈ rest, 0 < t.quantity := fun t ht => hq t (List.mem_cons_of_mem tx ht)
    have hwf2 : InvWF (processTx st tx).1 := processTx_invWF st tx hq0 hwf
    have hns2 : ∀ q ∈ shortfallList (processTx st tx) rest, q ≤ 0 := by
      intro q hq3
      exact hns q (by rw [shortfallList]; exact List.mem_cons_of_mem _ hq3)
    rw [ih (processTx st tx) hq2 hwf2 hns2 s, buyQty_cons, sellQty_cons]
    by_cases hb : tx.transaction_type = "buy" ∨ tx.transaction_type = "transfer_in"
    · rw [heldQty_buy st tx s hb]
      have hbi : (if (tx.transaction_type = "buy" ∨ tx.transaction_type = "transfer_in") ∧
          tx.crypto_symbol = s then tx.quantity else 0) =
          (if tx.crypto_symbol = s then tx.quantity else 0) := by
        by_cases hs : tx.crypto_symbol = s
        · rw [if_pos ⟨hb, hs⟩, if_pos hs]
        · rw [if_neg (fun hc => hs hc.2), if_neg hs]
      have hsi : (if (tx.transaction_type = "sell" ∨ tx.transaction_type = "transfer_out") ∧
          tx.crypto_symbol = s then tx.quantity else 0) = 0 := by
        rw [if_neg (fun hc => buy_not_sell tx hb hc.1)]
      rw [hbi, hsi]
      ring
    · by_cases hsell : tx.transaction_type = "sell" ∨ tx.transaction_type = "transfer_out"
      · have hpos : ∀ l ∈ dictGetD st.1 tx.crypto_symbol [], 0 < l.quantity :=
          invWF_getD st.1 tx.crypto_symbol hwf
        have hns0 : txShortfall st.1 tx ≤ 0 := by
          apply hns
          rw [shortfallList]
          exact List.mem_cons_self _ _
        rw [heldQty_sell_noShort st tx s hsell hq0 hpos hns0]
        have hbi : (if (tx.transaction_type = "buy" ∨ tx.transaction_type = "transfer_in") ∧
            tx.crypto_symbol = s then tx.quantity else 0) = 0 := by
          rw [if_neg (fun hc => hb hc.1)]
        have hsi : (if (tx.transaction_type = "sell" ∨ tx.transaction_type = "transfer_out") ∧
            tx.crypto_symbol = s then tx.quantity else 0) =
            (if tx.crypto_symbol = s then tx.quantity else 0) := by
          by_cases hs : tx.crypto_symbol = s
          · rw [if_pos ⟨hsell, hs⟩, if_pos hs]
          · rw [if_neg (fun hc => hs hc.2), if_neg hs]
        rw [hbi, hsi]
        ring
      · rw [heldQty_other st tx s hb hsell]
        have hbi : (if (tx.transaction_type = "buy" ∨ tx.transaction_type = "transfer_in") ∧
            tx.crypto_symbol = s then tx.quantity else 0) = 0 := by
          rw [if_neg (fun hc => hb hc.1)]
        have hsi : (if (tx.transaction_type = "sell" ∨ tx.transaction_type = "transfer_out") ∧
            tx.crypto_symbol = s then tx.quantity else 0) = 0 := by
          rw [if_neg (fun hc => hsell hc.1)]
        rw [hbi, hsi]
        ring

theorem insertByDate_perm (t : Transaction) (l : List Transaction) :
    (insertByDate t l).Perm (t :: l) := by
  induction l with
  | nil => exact List.Perm.refl _
  | cons u us ih =>
    unfold insertByDate
    by_cases h : u.transaction_date.days ≤ t.transaction_date.days
    · rw [if_pos h]
      exact (ih.cons u).trans (List.Perm.swap t u us)
    · rw [if_neg h]

theorem sortByDate_perm (txs : List Transaction) : (sortByDate txs).Perm txs := by
  suffices h : ∀ (l acc : List Transaction),
      (l.foldl (fun acc t => insertByDate t acc) acc).Perm (acc ++ l) by
    simpa [sortByDate] using h txs []
  intro l
  induction l with
  | nil => intro acc; simp
  | cons t rest ih =>
    intro acc
    rw [List.foldl_cons]
    refine (ih (insertByDate t acc)).trans ?_
    refine (List.Perm.append_right rest (insertByDate_perm t acc)).trans ?_
    exact List.perm_middle.symm

theorem buyQty_perm (s : String) {l1 l2 : List Transaction} (h : l1.Perm l2) :
    buyQty s l1 = buyQty s l2 := by
  unfold buyQty
  exact List.Perm.sum_eq ((h.filter _).map _)

theorem sellQty_perm (s : String) {l1 l2 : List Transaction} (h : l1.Perm l2) :
    sellQty s l1 = sellQty s l2 := by
  unfold sellQty
  exact List.Perm.sum_eq ((h.filter _).map _)

theorem processTransactions_eq (txs : List Transaction) :
    processTransactions txs =
      ⟨((sortByDate txs).foldl processTx ([], [])).2,
       ((sortByDate txs).foldl processTx ([], [])).1⟩ := rfl

theorem sell_ne_buy : (("sell":String) = "buy") = False := by simp

theorem sell_ne_transfer_in : (("sell":String) = "transfer_in") = False := by simp

theorem buy_ne_sell : (("buy":String) = "sell") = False := by simp

theorem buy_ne_transfer_out : (("buy":String) = "transfer_out") = False := by simp

theorem exchange_ne_buy : (("exchange":String) = "buy") = False := by simp

theorem exchange_ne_transfer_in : (("exchange":String) = "transfer_in") = False := by simp

theorem exchange_ne_sell : (("exchange":String) = "sell") = False := by simp

theorem exchange_ne_transfer_out : (("exchange":String) = "transfer_out") = False := by simp

theorem eth_ne_btc : (("ETH":String) = "BTC") = False := by simp

theorem btc_ne_eth : (("BTC":String) = "ETH") = False := by simp

theorem btc_ne_ltc : (("BTC":String) = "LTC") = False := by simp

theorem ltc_ne_btc : (("LTC":String) = "BTC") = False := by simp

theorem dictFind_some_mem_self {α : Type} (d : Dict α) (s : String) (v : α)
    (h : dictFind d s = some v) : (s, v) ∈ d := by
  induction d with
  | nil => simp [dictFind] at h
  | cons p rest ih =>
    by_cases hp : p.1 = s
    · simp [dictFind, hp] at h
      subst hp
      rw [← h]
      exact List.mem_cons_self p rest
    · simp [dictFind, hp] at h
      exact List.mem_cons_of_mem p (ih h)

/-- Claim C1 (amended): an oversell completes with the engine consuming all
available lots.  The step returns normally; the emitted gains account for
exactly the consumable quantity (the minimum of the requested quantity and
the held quantity); when the request is at least the holding, the lot
queue is left empty; and the remaining unsatisfied quantity, which the
source only prints as a warning, equals the excess of the request over the
holding and does not occur in the returned state. -/
theorem C1_oversell_consumes_all (st : Dict (List Lot) × Dict (List RealizedGain))
    (tx : Transaction)
    (hty : tx.transaction_type = "sell" ∨ tx.transaction_type = "transfer_out")
    (hq : 0 < tx.quantity)
    (hpos : ∀ l ∈ dictGetD st.1 tx.crypto_symbol [], 0 < l.quantity) :
    processTx st tx =
      (dictSet (dictEnsure st.1 tx.crypto_symbol []) tx.crypto_symbol
        (consumeLots tx.price_per_unit tx.transaction_date tx.id
          (dictGetD st.1 tx.crypto_symbol []) tx.quantity).2.1,
       dictSet (dictEnsure st.2 tx.crypto_symbol []) tx.crypto_symbol
        (dictGetD st.2 tx.crypto_symbol [] ++
          (consumeLots tx.price_per_unit tx.transaction_date tx.id
            (dictGetD st.1 tx.crypto_symbol []) tx.quantity).1)) ∧
    gainTotalQty (consumeLots tx.price_per_unit tx.transaction_date tx.id
        (dictGetD st.1 tx.crypto_symbol []) tx.quantity).1 =
      min tx.quantity (heldQty st.1 tx.crypto_symbol) ∧
    (heldQty st.1 tx.crypto_symbol ≤ tx.quantity →
      (consumeLots tx.price_per_unit tx.transaction_date tx.id
        (dictGetD st.1 tx.crypto_symbol []) tx.quantity).2.1 = []) ∧
    (consumeLots tx.price_per_unit tx.transaction_date tx.id
        (dictGetD st.1 tx.crypto_symbol []) tx.quantity).2.2 =
      max 0 (tx.quantity - heldQty st.1 tx.crypto_symbol) := by
  have hrem := consumeLots_rem tx.price_per_unit tx.transaction_date tx.id
    (dictGetD st.1 tx.crypto_symbol []) tx.quantity hq hpos
  have hcons := consumeLots_conservation tx.price_per_unit tx.transaction_date tx.id
    (dictGetD st.1 tx.crypto_symbol []) tx.quantity
  refine ⟨processTx_sell st tx hty, ?_, ?_, hrem⟩
  · have h2 := hcons.2
    rw [hrem] at h2
    unfold heldQty
    rcases le_total tx.quantity (lotTotalQty (dictGetD st.1 tx.crypto_symbol [])) with hle | hle
    · rw [min_eq_left hle]
      have hmx : tx.quantity - lotTotalQty (dictGetD st.1 tx.crypto_symbol []) ≤ 0 := by
        linarith
      rw [max_eq_left hmx] at h2
      linarith
    · rw [min_eq_right hle]
      have hmx : 0 ≤ tx.quantity - lotTotalQty (dictGetD st.1 tx.crypto_symbol []) := by
        linarith
      rw [max_eq_right hmx] at h2
      linarith
  · intro hle
    exact consumeLots_exhaust tx.price_per_unit tx.transaction_date tx.id
      (dictGetD st.1 tx.crypto_symbol []) tx.quantity hq hpos hle

/-- Claim C1 witness: selling 5 ETH against a single 3-ETH lot consumes
the whole queue, realizes gains for exactly min(5, 3) = 3 units, and the
remainder max(0, 5 - 3) = 2 is not part of the returned state. -/
theorem C1_oversell_witness :
    (consumeLots sellFiveTx.price_per_unit sellFiveTx.transaction_date sellFiveTx.id
      (dictGetD ethLotState.1 sellFiveTx.crypto_symbol []) sellFiveTx.quantity).2.1 = [] ∧
    gainTotalQty (consumeLots sellFiveTx.price_per_unit sellFiveTx.transaction_date
      sellFiveTx.id (dictGetD ethLotState.1 sellFiveTx.crypto_symbol [])
      sellFiveTx.quantity).1 =
      min sellFiveTx.quantity (heldQty ethLotState.1 sellFiveTx.crypto_symbol) ∧
    (consumeLots sellFiveTx.price_per_unit sellFiveTx.transaction_date sellFiveTx.id
      (dictGetD ethLotState.1 sellFiveTx.crypto_symbol []) sellFiveTx.quantity).2.2 =
      max 0 (sellFiveTx.quantity - heldQty ethLotState.1 sellFiveTx.crypto_symbol) :=
  ⟨(C1_oversell_consumes_all ethLotState sellFiveTx (Or.inl rfl)
      (by norm_num [sellFiveTx, mkTx])
      (by intro l hl
          simp [ethLotState, sellFiveTx, mkTx, dictGetD, dictFind] at hl
          subst hl
          norm_num)).2.2.1
      (by norm_num [heldQty, lotTotalQty, ethLotState, sellFiveTx, mkTx, dictGetD, dictFind]),
   (C1_oversell_consumes_all ethLotState sellFiveTx (Or.inl rfl)
      (by norm_num [sellFiveTx, mkTx])
      (by intro l hl
          simp [ethLotState, sellFiveTx, mkTx, dictGetD, dictFind] at hl
          subst hl
          norm_num)).2.1,
   (C1_oversell_consumes_all ethLotState sellFiveTx (Or.inl rfl)
      (by norm_num [sellFiveTx, mkTx])
      (by intro l hl
          simp [ethLotState, sellFiveTx, mkTx, dictGetD, dictFind] at hl
          subst hl
          norm_num)).2.2.2⟩

/-- Claim C1 counterexample: the unsatisfied remainder is not reported in
the returned result.  Selling 5 ETH against 3 ETH held returns exactly the
same result as selling 3 ETH against 3 ETH held, although the shortfalls
differ (2 versus 0), so no function of the returned result can recover the
shortfall; it is only printed as a warning. -/
theorem C1_shortfall_not_observable :
    processTransactions oversellTxs = processTransactions exactSellTxs ∧
    totalShortfall oversellTxs = 2 ∧ totalShortfall exactSellTxs = 0 := by
  refine ⟨?_, ?_, ?_⟩ <;>
    norm_num [processTransactions, ProfitLossCalculator.ofTransactions,
      ProfitLossCalculator.process_transactions, totalShortfall, shortfallList,
      txShortfall, oversellTxs, exactSellTxs, mkTx, sortByDate, insertByDate, processTx,
      dictEnsure, dictContains, dictFind, dictGetD, dictSet, consumeLots, mkGain,
      day0, day151, sell_ne_buy, sell_ne_transfer_in, buy_ne_sell, buy_ne_transfer_out]

/-- Claim C2 (amended): for positive-quantity transaction sequences in
which no disposal requests more than is held when it is processed, the
residual quantity of every symbol equals the sum of buy and transfer_in
quantities minus the sum of sell and transfer_out quantities. -/
theorem C2_residual_equals_flow (txs : List Transaction)
    (hq : ∀ t ∈ txs, 0 < t.quantity) (hns : noShortfall txs) (s : String) :
    heldQty (processTransactions txs).inventory s = buyQty s txs - sellQty s txs := by
  have hq2 : ∀ t ∈ sortByDate txs, 0 < t.quantity := by
    intro t ht
    exact hq t ((sortByDate_perm txs).mem_iff.mp ht)
  have hwf0 : InvWF (([], []) :
      Dict (List Lot) × Dict (List RealizedGain)).1 := by
    intro p hp
    simp at hp
  have h := process_heldQty (sortByDate txs) ([], []) hq2 hwf0 hns s
  rw [buyQty_perm s (sortByDate_perm txs), sellQty_perm s (sortByDate_perm txs)] at h
  rw [processTransactions_eq]
  show heldQty ((sortByDate txs).foldl processTx ([], [])).1 s = _
  rw [h]
  have h0 : heldQty (([], []) : Dict (List Lot) × Dict (List RealizedGain)).1 s = 0 := rfl
  rw [h0]
  ring

/-- Claim C2 witness: after buying 3 ETH and selling 2 ETH with no
shortfall, the residual ETH quantity equals 3 - 2. -/
theorem C2_flow_witness :
    heldQty (processTransactions partialSellTxs).inventory "ETH" =
      buyQty "ETH" partialSellTxs - sellQty "ETH" partialSellTxs :=
  C2_residual_equals_flow partialSellTxs
    (by intro t ht
        simp [partialSellTxs] at ht
        rcases ht with h | h <;> (subst h; norm_num [mkTx]))
    (by unfold noShortfall
        norm_num [shortfallList, txShortfall, partialSellTxs, mkTx, sortByDate,
          insertByDate, processTx, dictEnsure, dictContains, dictFind, dictGetD,
          dictSet, consumeLots, mkGain, day0, day151, sell_ne_buy, sell_ne_transfer_in,
          buy_ne_sell, buy_ne_transfer_out])
    "ETH"

/-- Claim C2 counterexample: after buying 3 ETH and selling 5 ETH the
residual quantity is 0, but the flow sum is 3 - 5 = -2, so the claimed
equality fails for sequences with an inventory shortfall. -/
theorem C2_flow_counterexample :
    ¬ (heldQty (processTransactions oversellTxs).inventory "ETH" =
        buyQty "ETH" oversellTxs - sellQty "ETH" oversellTxs) := by
  norm_num [heldQty, lotTotalQty, buyQty, sellQty, processTransactions,
    ProfitLossCalculator.ofTransactions, ProfitLossCalculator.process_transactions,
    oversellTxs, mkTx, sortByDate, insertByDate, processTx, dictEnsure, dictContains,
    dictFind, dictGetD, dictSet, consumeLots, mkGain, day0, day151, sell_ne_buy,
    sell_ne_transfer_in, buy_ne_sell, buy_ne_transfer_out]

/-- Claim C3: process_transactions resets the inventory before each pass,
so a second call on the same object returns exactly the same result, and
the result never depends on whatever inventory was left in the object
beforehand. -/
theorem C3_process_deterministic (c : ProfitLossCalculator) :
    (c.process_transactions.1).process_transactions.2 = c.process_transactions.2 ∧
    ∀ inv1 inv2 : Dict (List Lot),
      (ProfitLossCalculator.mk c.transactions inv1).process_transactions.2 =
      (ProfitLossCalculator.mk c.transactions inv2).process_transactions.2 :=
  ⟨rfl, fun _ _ => rfl⟩

theorem consumeLots_gains_from (sp : ℚ) (sd : DateTime) (si : Option Int) :
    ∀ (lots : List Lot) (rem : ℚ) (g : RealizedGain),
      g ∈ (consumeLots sp sd si lots rem).1 →
      ∃ l ∈ lots, g.buy_date = l.date ∧ g.buy_price = l.price ∧
        g.buy_transaction_id = l.tx_id := by
  intro lots
  induction lots with
  | nil =>
    intro rem g hg
    simp [consumeLots] at hg
  | cons x rest ih =>
    intro rem g hg
    by_cases h0 : rem ≤ 0
    · rw [consumeLots_nonpos sp sd si _ rem h0] at hg
      simp at hg
    · by_cases hfull : x.quantity ≤ rem
      · simp only [consumeLots, if_neg h0, if_pos hfull] at hg
        rcases List.mem_cons.mp hg with h1 | h1
        · exact ⟨x, List.mem_cons_self x rest, by rw [h1]; exact ⟨rfl, rfl, rfl⟩⟩
        · rcases ih (rem - x.quantity) g h1 with ⟨l, hl, hprops⟩
          exact ⟨l, List.mem_cons_of_mem x hl, hprops⟩
      · simp only [consumeLots, if_neg h0, if_neg hfull] at hg
        rcases List.mem_cons.mp hg with h1 | h1
        · exact ⟨x, List.mem_cons_self x rest, by rw [h1]; exact ⟨rfl, rfl, rfl⟩⟩
        · simp at h1

/-- Claim C4: with two buy lots of the same symbol at distinct dates
followed by a sell, the gains emitted for the sell reference the oldest
lot first: the first record carries the earlier lot's date, price and
transaction id, and any record for the later lot appears only in the tail,
after the earlier lot's quantity was consumed in full. -/
theorem C4_fifo_oldest_first (sym : String) (q1 q2 p1 p2 q p : ℚ)
    (d1 d2 d3 : DateTime) (i1 i2 i3 : Option Int)
    (hq : 0 < q)
    (hd12 : d1.days < d2.days) (hd23 : d2.days ≤ d3.days) :
    gainsFor [mkTx "buy" sym q1 p1 d1 i1, mkTx "buy" sym q2 p2 d2 i2,
        mkTx "sell" sym q p d3 i3] sym ≠ [] ∧
    (gainsFor [mkTx "buy" sym q1 p1 d1 i1, mkTx "buy" sym q2 p2 d2 i2,
        mkTx "sell" sym q p d3 i3] sym).headI.buy_date = d1 ∧
    (gainsFor [mkTx "buy" sym q1 p1 d1 i1, mkTx "buy" sym q2 p2 d2 i2,
        mkTx "sell" sym q p d3 i3] sym).headI.buy_price = p1 ∧
    (gainsFor [mkTx "buy" sym q1 p1 d1 i1, mkTx "buy" sym q2 p2 d2 i2,
        mkTx "sell" sym q p d3 i3] sym).headI.buy_transaction_id = i1 ∧
    ((gainsFor [mkTx "buy" sym q1 p1 d1 i1, mkTx "buy" sym q2 p2 d2 i2,
        mkTx "sell" sym q p d3 i3] sym).tail ≠ [] →
      (gainsFor [mkTx "buy" sym q1 p1 d1 i1, mkTx "buy" sym q2 p2 d2 i2,
        mkTx "sell" sym q p d3 i3] sym).headI.quantity = q1) ∧
    ∀ g ∈ (gainsFor [mkTx "buy" sym q1 p1 d1 i1, mkTx "buy" sym q2 p2 d2 i2,
        mkTx "sell" sym q p d3 i3] sym).tail,
      g.buy_date = d2 ∧ g.buy_price = p2 ∧ g.buy_transaction_id = i2 := by
  have hd13 : d1.days ≤ d3.days := le_trans (le_of_lt hd12) hd23
  have hsort : sortByDate [mkTx "buy" sym q1 p1 d1 i1, mkTx "buy" sym q2 p2 d2 i2,
      mkTx "sell" sym q p d3 i3] = [mkTx "buy" sym q1 p1 d1 i1,
      mkTx "buy" sym q2 p2 d2 i2, mkTx "sell" sym q p d3 i3] := by
    simp [sortByDate, insertByDate, mkTx, le_of_lt hd12, hd23, hd13]
  have h1 : processTx ([], []) (mkTx "buy" sym q1 p1 d1 i1) =
      ([(sym, [⟨q1, p1, d1, i1⟩])], [(sym, [])]) := by
    rw [processTx_buy _ _ (Or.inl rfl)]
    simp [mkTx, dictEnsure, dictContains, dictFind, dictGetD, dictSet]
  have h2 : processTx ([(sym, [⟨q1, p1, d1, i1⟩])], [(sym, [])])
      (mkTx "buy" sym q2 p2 d2 i2) =
      ([(sym, [⟨q1, p1, d1, i1⟩, ⟨q2, p2, d2, i2⟩])], [(sym, [])]) := by
    rw [processTx_buy _ _ (Or.inl rfl)]
    simp [mkTx, dictEnsure, dictContains, dictFind, dictGetD, dictSet]
  have h3 : processTx ([(sym, [⟨q1, p1, d1, i1⟩, ⟨q2, p2, d2, i2⟩])], [(sym, [])])
      (mkTx "sell" sym q p d3 i3) =
      ([(sym, (consumeLots p d3 i3 [⟨q1, p1, d1, i1⟩, ⟨q2, p2, d2, i2⟩] q).2.1)],
       [(sym, (consumeLots p d3 i3 [⟨q1, p1, d1, i1⟩, ⟨q2, p2, d2, i2⟩] q).1)]) := by
    rw [processTx_sell _ _ (Or.inl rfl)]
    simp [mkTx, dictEnsure, dictContains, dictFind, dictGetD, dictSet]
  have hgs : gainsFor [mkTx "buy" sym q1 p1 d1 i1, mkTx "buy" sym q2 p2 d2 i2,
      mkTx "sell" sym q p d3 i3] sym =
      (consumeLots p d3 i3 [⟨q1, p1, d1, i1⟩, ⟨q2, p2, d2, i2⟩] q).1 := by
    unfold gainsFor
    rw [processTransactions_eq, hsort, List.foldl_cons, h1, List.foldl_cons, h2,
      List.foldl_cons, h3, List.foldl_nil]
    simp [dictGetD, dictFind]
  rw [hgs]
  have hnot0 : ¬ q ≤ 0 := not_le.mpr hq
  rcases le_or_lt q1 q with hle | hlt
  · have hcl : (consumeLots p d3 i3 [⟨q1, p1, d1, i1⟩, ⟨q2, p2, d2, i2⟩] q).1 =
        mkGain p d3 i3 ⟨q1, p1, d1, i1⟩ q1 ::
          (consumeLots p d3 i3 [⟨q2, p2, d2, i2⟩] (q - q1)).1 := by
      simp only [consumeLots, if_neg hnot0,
        if_pos (show (⟨q1, p1, d1, i1⟩ : Lot).quantity ≤ q from hle)]
    rw [hcl]
    refine ⟨by simp, rfl, rfl, rfl, fun _ => rfl, ?_⟩
    intro g hg
    rw [List.tail_cons] at hg
    rcases consumeLots_gains_from p d3 i3 [⟨q2, p2, d2, i2⟩] (q - q1) g hg with
      ⟨l, hl, hda, hpr, hid⟩
    simp at hl
    subst hl
    exact ⟨hda, hpr, hid⟩
  · have hcl : (consumeLots p d3 i3 [⟨q1, p1, d1, i1⟩, ⟨q2, p2, d2, i2⟩] q).1 =
        [mkGain p d3 i3 ⟨q1, p1, d1, i1⟩ q] := by
      simp only [consumeLots, if_neg hnot0,
        if_neg (not_le.mpr (show q < (⟨q1, p1, d1, i1⟩ : Lot).quantity from hlt))]
    rw [hcl]
    refine ⟨by simp, rfl, rfl, rfl, ?_, ?_⟩
    · intro h
      exact absurd rfl h
    · intro g hg
      rw [List.tail_cons] at hg
      simp at hg

/-- Claim C4 witness: in the spec scenario (buy 1 BTC early, buy 1 BTC
later, sell 1.5 BTC), the first emitted gain carries the earlier lot's
date, price and id, and its quantity is the whole earlier lot. -/
theorem C4_fifo_witness :
    (gainsFor fifoTxs "BTC").headI.buy_date = day0 ∧
    (gainsFor fifoTxs "BTC").headI.buy_price = 10000 ∧
    (gainsFor fifoTxs "BTC").headI.buy_transaction_id = some 1 ∧
    (gainsFor fifoTxs "BTC").headI.quantity = 1 :=
  ⟨(C4_fifo_oldest_first "BTC" 1 1 10000 20000 (3/2) 30000 day0 day151 day365
      (some 1) (some 2) (some 3) (by norm_num) (by decide) (by decide)).2.1,
   (C4_fifo_oldest_first "BTC" 1 1 10000 20000 (3/2) 30000 day0 day151 day365
      (some 1) (some 2) (some 3) (by norm_num) (by decide) (by decide)).2.2.1,
   (C4_fifo_oldest_first "BTC" 1 1 10000 20000 (3/2) 30000 day0 day151 day365
      (some 1) (some 2) (some 3) (by norm_num) (by decide) (by decide)).2.2.2.1,
   (C4_fifo_oldest_first "BTC" 1 1 10000 20000 (3/2) 30000 day0 day151 day365
      (some 1) (some 2) (some 3) (by norm_num) (by decide) (by decide)).2.2.2.2.1
     (by norm_num [gainsFor, processTransactions, ProfitLossCalculator.ofTransactions,
        ProfitLossCalculator.process_transactions, mkTx, sortByDate, insertByDate,
        processTx, dictEnsure, dictContains, dictFind, dictGetD, dictSet, consumeLots,
        mkGain, day0, day151, day365, sell_ne_buy, sell_ne_transfer_in, buy_ne_sell,
        buy_ne_transfer_out])⟩

/-- Claim C5: a sale of strictly less than the head lot's quantity leaves
that lot at the head of its symbol's queue with its quantity reduced by
exactly the sold amount and its price, date and source transaction id
unchanged; the remaining lots of that queue and the queues and gain lists
of all other symbols are untouched. -/
theorem C5_lot_split (st : Dict (List Lot) × Dict (List RealizedGain))
    (tx : Transaction) (l : Lot) (rest : List Lot)
    (hty : tx.transaction_type = "sell" ∨ tx.transaction_type = "transfer_out")
    (hlots : dictGetD st.1 tx.crypto_symbol [] = l :: rest)
    (hq : 0 < tx.quantity) (hlt : tx.quantity < l.quantity) :
    dictGetD (processTx st tx).1 tx.crypto_symbol [] =
      { l with quantity := l.quantity - tx.quantity } :: rest ∧
    (∀ s, s ≠ tx.crypto_symbol →
      dictGetD (processTx st tx).1 s [] = dictGetD st.1 s []) ∧
    (∀ s, s ≠ tx.crypto_symbol →
      dictGetD (processTx st tx).2 s [] = dictGetD st.2 s []) := by
  rw [processTx_sell st tx hty]
  have hcl : consumeLots tx.price_per_unit tx.transaction_date tx.id
      (dictGetD st.1 tx.crypto_symbol []) tx.quantity =
      ([mkGain tx.price_per_unit tx.transaction_date tx.id l tx.quantity],
       { l with quantity := l.quantity - tx.quantity } :: rest, 0) := by
    rw [hlots]
    simp only [consumeLots, if_neg (not_le.mpr hq), if_neg (not_le.mpr hlt)]
  refine ⟨?_, ?_, ?_⟩
  · rw [hcl]
    exact dictGetD_set_self _ _ _ _
  · intro s hs
    rw [dictGetD_set_ne _ _ _ _ _ hs, dictGetD_ensure]
  · intro s hs
    rw [dictGetD_set_ne _ _ _ _ _ hs, dictGetD_ensure]

/-- Claim C5 witness: selling 2 ETH against a 3-ETH head lot leaves a
single lot of quantity 3 - 2 with unchanged price, date and source id. -/
theorem C5_lot_split_witness :
    dictGetD (processTx ethLotState sellTwoTx).1 "ETH" [] =
      [⟨3 - 2, 100, day0, some 1⟩] :=
  (C5_lot_split ethLotState sellTwoTx ⟨3, 100, day0, some 1⟩ [] (Or.inl rfl) rfl
    (by norm_num [sellTwoTx, mkTx]) (by norm_num [sellTwoTx, mkTx])).1

/-- Claim C9: processing a transaction of type exchange emits no realized
gain, appends no lot and changes no lot quantity: every symbol's lot queue
and gain list read back unchanged. -/
theorem C9_exchange_noop (st : Dict (List Lot) × Dict (List RealizedGain))
    (tx : Transaction) (hty : tx.transaction_type = "exchange") :
    (∀ s, dictGetD (processTx st tx).1 s [] = dictGetD st.1 s []) ∧
    (∀ s, dictGetD (processTx st tx).2 s [] = dictGetD st.2 s []) := by
  have h1 : ¬ (tx.transaction_type = "buy" ∨ tx.transaction_type = "transfer_in") := by
    rw [hty]; decide
  have h2 : ¬ (tx.transaction_type = "sell" ∨ tx.transaction_type = "transfer_out") := by
    rw [hty]; decide
  rw [processTx_other st tx h1 h2]
  exact ⟨fun s => dictGetD_ensure st.1 tx.crypto_symbol s [],
         fun s => dictGetD_ensure st.2 tx.crypto_symbol s []⟩

/-- Claim C9 witness: an exchange of BTC leaves the ETH lot queue and the
BTC gain list unchanged in a concrete state. -/
theorem C9_exchange_witness :
    dictGetD (processTx ethLotState exchangeTx).1 "ETH" [] =
      dictGetD ethLotState.1 "ETH" [] ∧
    dictGetD (processTx ethLotState exchangeTx).2 "BTC" [] =
      dictGetD ethLotState.2 "BTC" [] :=
  ⟨(C9_exchange_noop ethLotState exchangeTx rfl).1 "ETH",
   (C9_exchange_noop ethLotState exchangeTx rfl).2 "BTC"⟩

/-- Claim C6: the term of every emitted realized gain is short exactly
when the holding period is at most 365 days and long exactly when it
exceeds 365 days; in particular 365 days classifies short and 366 long. -/
theorem C6_term_boundary (txs : List Transaction) (s : String) (g : RealizedGain)
    (hg : g ∈ dictGetD (processTransactions txs).realized_gains s []) :
    (g.term = "short" ↔ g.holding_period_days ≤ 365) ∧
    (g.term = "long" ↔ 365 < g.holding_period_days) := by
  have hwf : GainsDictWF ((sortByDate txs).foldl processTx ([], [])).2 :=
    foldl_gainsWF (sortByDate txs) ([], []) (by intro p hp; simp at hp)
  rw [processTransactions_eq] at hg
  have hg2 : g ∈ dictGetD ((sortByDate txs).foldl processTx ([], [])).2 s [] := hg
  have hterm := (gainsWF_getD _ s hwf g hg2).2.2.2
  constructor
  · constructor
    · intro hshort
      by_contra hgt
      push_neg at hgt
      rw [hterm, if_pos hgt] at hshort
      exact absurd hshort (by decide)
    · intro hle
      rw [hterm, if_neg (not_lt.mpr hle)]
  · constructor
    · intro hlong
      by_contra hgt
      push_neg at hgt
      rw [hterm, if_neg (not_lt.mpr hgt)] at hlong
      exact absurd hlong (by decide)
    · intro hgt
      rw [hterm, if_pos hgt]

/-- Claim C6 witness: in the boundary run the BTC gain held exactly 365
days and classifies short, the LTC gain held 366 days and classifies
long; both satisfy the boundary equivalences. -/
theorem C6_term_witness :
    ((btcGain365.term = "short" ↔ btcGain365.holding_period_days ≤ 365) ∧
      (btcGain365.term = "long" ↔ 365 < btcGain365.holding_period_days)) ∧
    ((ltcGain366.term = "short" ↔ ltcGain366.holding_period_days ≤ 365) ∧
      (ltcGain366.term = "long" ↔ 365 < ltcGain366.holding_period_days)) :=
  ⟨C6_term_boundary boundaryTxs "BTC" btcGain365
    (by norm_num [processTransactions, ProfitLossCalculator.ofTransactions,
      ProfitLossCalculator.process_transactions, boundaryTxs, btcGain365, mkTx,
      sortByDate, insertByDate, processTx, dictEnsure, dictContains, dictFind,
      dictGetD, dictSet, consumeLots, mkGain, day0, day365, day366, sell_ne_buy,
      sell_ne_transfer_in, buy_ne_sell, buy_ne_transfer_out, btc_ne_ltc, ltc_ne_btc]),
   C6_term_boundary boundaryTxs "LTC" ltcGain366
    (by norm_num [processTransactions, ProfitLossCalculator.ofTransactions,
      ProfitLossCalculator.process_transactions, boundaryTxs, ltcGain366, mkTx,
      sortByDate, insertByDate, processTx, dictEnsure, dictContains, dictFind,
      dictGetD, dictSet, consumeLots, mkGain, day0, day365, day366, sell_ne_buy,
      sell_ne_transfer_in, buy_ne_sell, buy_ne_transfer_out, btc_ne_ltc, ltc_ne_btc])⟩

theorem long_ne_short : (("long":String) = "short") = False := by simp

theorem gainFold_spec (year : Option Int) :
    ∀ (gs : List RealizedGain) (acc : ℚ × ℚ × List RealizedGain),
      gs.foldl (gainStep year) acc =
        (acc.1 + (((gs.filter (fun g => !(yearSkips year g))).filter
            (fun g => decide (g.term = "short"))).map RealizedGain.gain).sum,
         acc.2.1 + (((gs.filter (fun g => !(yearSkips year g))).filter
            (fun g => !(decide (g.term = "short")))).map RealizedGain.gain).sum,
         acc.2.2 ++ gs.filter (fun g => !(yearSkips year g))) := by
  intro gs
  induction gs with
  | nil =>
    intro acc
    simp
  | cons g rest ih =>
    intro acc
    rw [List.foldl_cons]
    by_cases hskip : yearSkips year g = true
    · rw [show gainStep year acc g = acc from by simp [gainStep, hskip]]
      rw [ih acc]
      simp [List.filter_cons, hskip]
    · by_cases hshort : g.term = "short"
      · rw [show gainStep year acc g = (acc.1 + g.gain, acc.2.1, acc.2.2 ++ [g]) from by
          simp [gainStep, hskip, hshort]]
        rw [ih _]
        simp [List.filter_cons, hskip, hshort, List.append_assoc, add_assoc]
      · rw [show gainStep year acc g = (acc.1, acc.2.1 + g.gain, acc.2.2 ++ [g]) from by
          simp [gainStep, hskip, hshort]]
        rw [ih _]
        simp [List.filter_cons, hskip, hshort, List.append_assoc, add_assoc]

theorem dictFold_gainStep (year : Option Int) :
    ∀ (rg : Dict (List RealizedGain)) (acc : ℚ × ℚ × List RealizedGain),
      rg.foldl (fun a p => p.2.foldl (gainStep year) a) acc =
        (allGains rg).foldl (gainStep year) acc := by
  intro rg
  induction rg with
  | nil => intro acc; rfl
  | cons p rest ih =>
    intro acc
    rw [List.foldl_cons, ih,
      show allGains (p :: rest) = p.2 ++ allGains rest from rfl, List.foldl_append]

/-- Claim C7 (amended): for a nonzero given year the summary's transaction
detail consists of exactly the realized gains whose sell year equals that
year, in order; with no year given every gain is included; the short and
long totals are the sums of the included gains split by term; and the
returned total always equals short plus long.  (A given year of 0 is
treated like an omitted year by the truthiness test at line 164.) -/
theorem C7_year_filter (txs : List Transaction) (year : Option Int) :
    (∀ y : Int, year = some y → y ≠ 0 →
      (calcRealizedGains txs year).transactions =
        (allGains (processTransactions txs).realized_gains).filter
          (fun g => decide (g.sell_date.year = y))) ∧
    (year = none →
      (calcRealizedGains txs year).transactions =
        allGains (processTransactions txs).realized_gains) ∧
    (year = some 0 →
      (calcRealizedGains txs year).transactions =
        allGains (processTransactions txs).realized_gains) ∧
    (calcRealizedGains txs year).short_term_gains =
      ((((calcRealizedGains txs year).transactions).filter
        (fun g => decide (g.term = "short"))).map RealizedGain.gain).sum ∧
    (calcRealizedGains txs year).long_term_gains =
      ((((calcRealizedGains txs year).transactions).filter
        (fun g => !(decide (g.term = "short")))).map RealizedGain.gain).sum ∧
    (calcRealizedGains txs year).total_gains =
      (calcRealizedGains txs year).short_term_gains +
        (calcRealizedGains txs year).long_term_gains := by
  have hfold := dictFold_gainStep year (processTransactions txs).realized_gains (0, 0, [])
  have hspec := gainFold_spec year (allGains (processTransactions txs).realized_gains) (0, 0, [])
  have htr : (calcRealizedGains txs year).transactions =
      (allGains (processTransactions txs).realized_gains).filter
        (fun g => !(yearSkips year g)) := by
    show ((processTransactions txs).realized_gains.foldl
      (fun a p => p.2.foldl (gainStep year) a) (0, 0, [])).2.2 = _
    rw [hfold, hspec]
    simp
  have hst : (calcRealizedGains txs year).short_term_gains =
      ((((allGains (processTransactions txs).realized_gains).filter
        (fun g => !(yearSkips year g))).filter
          (fun g => decide (g.term = "short"))).map RealizedGain.gain).sum := by
    show ((processTransactions txs).realized_gains.foldl
      (fun a p => p.2.foldl (gainStep year) a) (0, 0, [])).1 = _
    rw [hfold, hspec]
    simp
  have hlo : (calcRealizedGains txs year).long_term_gains =
      ((((allGains (processTransactions txs).realized_gains).filter
        (fun g => !(yearSkips year g))).filter
          (fun g => !(decide (g.term = "short")))).map RealizedGain.gain).sum := by
    show ((processTransactions txs).realized_gains.foldl
      (fun a p => p.2.foldl (gainStep year) a) (0, 0, [])).2.1 = _
    rw [hfold, hspec]
    simp
  refine ⟨?_, ?_, ?_, ?_, ?_, ?_⟩
  · intro y hy hy0
    subst hy
    rw [htr]
    apply List.filter_congr
    intro g _
    have hd : decide (y ≠ 0) = true := by simp [hy0]
    simp [yearSkips, hd, decide_not]
  · intro hy
    subst hy
    rw [htr]
    simp [yearSkips]
  · intro hy
    subst hy
    rw [htr]
    simp [yearSkips]
  · rw [hst, htr]
  · rw [hlo, htr]
  · show ((processTransactions txs).realized_gains.foldl
      (fun a p => p.2.foldl (gainStep year) a) (0, 0, [])).1 +
      ((processTransactions txs).realized_gains.foldl
        (fun a p => p.2.foldl (gainStep year) a) (0, 0, [])).2.1 = _
    rfl

/-- Claim C7 witness: filtering the boundary run by year 2023 keeps
exactly the gains sold in 2023; with the given year 0 every gain is
included; and the total equals short plus long. -/
theorem C7_year_witness :
    (calcRealizedGains boundaryTxs (some 2023)).transactions =
      (allGains (processTransactions boundaryTxs).realized_gains).filter
        (fun g => decide (g.sell_date.year = 2023)) ∧
    (calcRealizedGains boundaryTxs (some 0)).transactions =
      allGains (processTransactions boundaryTxs).realized_gains ∧
    (calcRealizedGains boundaryTxs (some 2023)).total_gains =
      (calcRealizedGains boundaryTxs (some 2023)).short_term_gains +
        (calcRealizedGains boundaryTxs (some 2023)).long_term_gains :=
  ⟨(C7_year_filter boundaryTxs (some 2023)).1 2023 rfl (by decide),
   (C7_year_filter boundaryTxs (some 0)).2.2.1 rfl,
   (C7_year_filter boundaryTxs (some 2023)).2.2.2.2.2⟩

/-- Claim C7 counterexample: with a given year of 0 the code skips the
year filter (the truthiness test at line 164 treats 0 like None), so the
summary includes gains sold in 2023 although no gain has sell year 0;
the claimed filter-by-given-year behavior fails at year 0. -/
theorem C7_year_zero_counterexample :
    (calcRealizedGains boundaryTxs (some 0)).transactions ≠
      (allGains (processTransactions boundaryTxs).realized_gains).filter
        (fun g => decide (g.sell_date.year = 0)) := by
  norm_num [calcRealizedGains, ProfitLossCalculator.calculate_realized_gains,
    gainStep, yearSkips, allGains, processTransactions,
    ProfitLossCalculator.ofTransactions, ProfitLossCalculator.process_transactions,
    boundaryTxs, mkTx, sortByDate, insertByDate, processTx, dictEnsure, dictContains,
    dictFind, dictGetD, dictSet, consumeLots, mkGain, day0, day365, day366,
    sell_ne_buy, sell_ne_transfer_in, buy_ne_sell, buy_ne_transfer_out,
    btc_ne_ltc, ltc_ne_btc, long_ne_short]
  exact List.cons_ne_nil _ _

theorem unrealized_fold (prices : Dict ℚ) :
    ∀ (inv : Dict InventoryItem) (acc : Dict UnrealizedItem × ℚ),
      ∃ rest : Dict UnrealizedItem,
        (inv.foldl (unrealizedStep prices) acc).1 = acc.1 ++ rest ∧
        (inv.foldl (unrealizedStep prices) acc).2 =
          acc.2 + (rest.map (fun p => p.2.unrealized_gain)).sum ∧
        ∀ p ∈ rest, dictContains prices p.1 = true := by
  intro inv
  induction inv with
  | nil =>
    intro acc
    exact ⟨[], by simp, by simp, by intro p hp; simp at hp⟩
  | cons q rest ih =>
    intro acc
    rw [List.foldl_cons]
    cases hfind : dictFind prices q.1 with
    | none =>
      have hstep : unrealizedStep prices acc q = acc := by
        simp [unrealizedStep, hfind]
      rw [hstep]
      exact ih acc
    | some price =>
      have hstep : unrealizedStep prices acc q =
          (acc.1 ++ [(q.1, ⟨q.2.quantity, q.2.average_cost, price,
            q.2.quantity * price, q.2.quantity * q.2.average_cost,
            q.2.quantity * price - q.2.quantity * q.2.average_cost⟩)],
           acc.2 + (q.2.quantity * price - q.2.quantity * q.2.average_cost)) := by
        simp [unrealizedStep, hfind]
      rw [hstep]
      obtain ⟨rest2, h1, h2, h3⟩ := ih (acc.1 ++ [(q.1, ⟨q.2.quantity, q.2.average_cost,
        price, q.2.quantity * price, q.2.quantity * q.2.average_cost,
        q.2.quantity * price - q.2.quantity * q.2.average_cost⟩)],
        acc.2 + (q.2.quantity * price - q.2.quantity * q.2.average_cost))
      refine ⟨(q.1, ⟨q.2.quantity, q.2.average_cost, price, q.2.quantity * price,
        q.2.quantity * q.2.average_cost,
        q.2.quantity * price - q.2.quantity * q.2.average_cost⟩) :: rest2, ?_, ?_, ?_⟩
      · rw [h1]
        simp
      · rw [h2]
        simp [add_assoc]
      · intro p hp
        rcases List.mem_cons.mp hp with h4 | h4
        · rw [h4]
          simp [dictContains, hfind]
        · exact h3 p h4

/-- Claim C8: calculate_unrealized_gains never fails on missing prices:
every reported symbol has a price in the map, symbols without a price are
omitted from the per-symbol results, the total sums exactly the included
symbols, and an empty price map gives an empty by-symbol dict and a total
of 0. -/
theorem C8_missing_prices (txs : List Transaction) (prices : Dict ℚ) :
    (∀ p ∈ (calcUnrealizedGains txs prices).by_symbol,
      dictContains prices p.1 = true) ∧
    (∀ s, dictContains prices s = false →
      dictFind (calcUnrealizedGains txs prices).by_symbol s = none) ∧
    (calcUnrealizedGains txs prices).total_unrealized_gain =
      (((calcUnrealizedGains txs prices).by_symbol).map
        (fun p => p.2.unrealized_gain)).sum ∧
    calcUnrealizedGains txs [] = ⟨[], 0⟩ := by
  obtain ⟨rest, h1, h2, h3⟩ := unrealized_fold prices
    ((ProfitLossCalculator.ofTransactions txs).get_current_inventory) ([], 0)
  have hby : (calcUnrealizedGains txs prices).by_symbol = rest := by
    show ((ProfitLossCalculator.ofTransactions txs).get_current_inventory.foldl
      (unrealizedStep prices) ([], 0)).1 = rest
    rw [h1]
    simp
  have htot : (calcUnrealizedGains txs prices).total_unrealized_gain =
      (rest.map (fun p => p.2.unrealized_gain)).sum := by
    show ((ProfitLossCalculator.ofTransactions txs).get_current_inventory.foldl
      (unrealizedStep prices) ([], 0)).2 = _
    rw [h2]
    simp
  refine ⟨?_, ?_, ?_, ?_⟩
  · intro p hp
    rw [hby] at hp
    exact h3 p hp
  · intro s hs
    cases hf : dictFind (calcUnrealizedGains txs prices).by_symbol s with
    | none => rfl
    | some v =>
      have hmem := dictFind_some_mem_self _ _ _ hf
      rw [hby] at hmem
      have hc := h3 (s, v) hmem
      rw [hs] at hc
      simp at hc
  · rw [htot, hby]
  · obtain ⟨rest0, g1, g2, g3⟩ := unrealized_fold ([] : Dict ℚ)
      ((ProfitLossCalculator.ofTransactions txs).get_current_inventory) ([], 0)
    have hrest0 : rest0 = [] := by
      cases rest0 with
      | nil => rfl
      | cons p ps =>
        have hc := g3 p (List.mem_cons_self p ps)
        simp [dictContains, dictFind] at hc
    have hb : (calcUnrealizedGains txs []).by_symbol = [] := by
      show ((ProfitLossCalculator.ofTransactions txs).get_current_inventory.foldl
        (unrealizedStep []) ([], 0)).1 = []
      rw [g1, hrest0]
      simp
    have ht : (calcUnrealizedGains txs []).total_unrealized_gain = 0 := by
      show ((ProfitLossCalculator.ofTransactions txs).get_current_inventory.foldl
        (unrealizedStep []) ([], 0)).2 = 0
      rw [g2, hrest0]
      simp
    calc calcUnrealizedGains txs [] = ⟨(calcUnrealizedGains txs []).by_symbol,
        (calcUnrealizedGains txs []).total_unrealized_gain⟩ := rfl
      _ = ⟨[], 0⟩ := by rw [hb, ht]

/-- Claim C8 witness: with 1 ETH still held but a price map that prices
only BTC, ETH is omitted from the by-symbol results; with an empty price
map the result is empty with a zero total. -/
theorem C8_missing_prices_witness :
    dictFind (calcUnrealizedGains partialSellTxs btcOnlyPrices).by_symbol "ETH" = none ∧
    calcUnrealizedGains partialSellTxs [] = ⟨[], 0⟩ :=
  ⟨(C8_missing_prices partialSellTxs btcOnlyPrices).2.1 "ETH"
    (by simp [dictContains, dictFind, btcOnlyPrices]),
   (C8_missing_prices partialSellTxs btcOnlyPrices).2.2.2⟩

theorem processTx_withFee (st : Dict (List Lot) × Dict (List RealizedGain))
    (f : ℚ) (t : Transaction) : processTx st (withFee f t) = processTx st t := rfl

theorem insertByDate_withFee (f : ℚ) (t : Transaction) :
    ∀ l : List Transaction,
      insertByDate (withFee f t) (l.map (withFee f)) =
        (insertByDate t l).map (withFee f) := by
  intro l
  induction l with
  | nil => rfl
  | cons u us ih =>
    by_cases h : u.transaction_date.days ≤ t.transaction_date.days
    · simp [List.map_cons, insertByDate, withFee, h]
      simpa [withFee] using ih
    · simp [List.map_cons, insertByDate, withFee, h]

theorem sortByDate_withFee (f : ℚ) (txs : List Transaction) :
    sortByDate (txs.map (withFee f)) = (sortByDate txs).map (withFee f) := by
  suffices h : ∀ (l acc : List Transaction),
      (l.map (withFee f)).foldl (fun acc t => insertByDate t acc) (acc.map (withFee f)) =
        (l.foldl (fun acc t => insertByDate t acc) acc).map (withFee f) by
    simpa [sortByDate] using h txs []
  intro l
  induction l with
  | nil => intro acc; rfl
  | cons t rest ih =>
    intro acc
    rw [List.map_cons, List.foldl_cons, List.foldl_cons, insertByDate_withFee f t acc]
    exact ih (insertByDate t acc)

theorem foldl_processTx_withFee (f : ℚ) : ∀ (txs : List Transaction)
    (st : Dict (List Lot) × Dict (List RealizedGain)),
    (txs.map (withFee f)).foldl processTx st = txs.foldl processTx st := by
  intro txs
  induction txs with
  | nil => intro st; rfl
  | cons t rest ih =>
    intro st
    rw [List.map_cons, List.foldl_cons, List.foldl_cons, processTx_withFee st f t, ih]

theorem processTransactions_withFee (f : ℚ) (txs : List Transaction) :
    processTransactions (txs.map (withFee f)) = processTransactions txs := by
  rw [processTransactions_eq, processTransactions_eq, sortByDate_withFee,
    foldl_processTx_withFee]

/-- Claim C10: the fee field never enters the core computation: replacing
every fee changes neither the processing result nor the realized or
unrealized summaries, and every emitted gain's cost basis, proceeds and
gain are computed from quantity and unit prices alone. -/
theorem C10_fee_ignored (txs : List Transaction) (f : ℚ) (prices : Dict ℚ)
    (year : Option Int) :
    processTransactions (txs.map (withFee f)) = processTransactions txs ∧
    calcRealizedGains (txs.map (withFee f)) year = calcRealizedGains txs year ∧
    calcUnrealizedGains (txs.map (withFee f)) prices = calcUnrealizedGains txs prices ∧
    ∀ s g, g ∈ dictGetD (processTransactions txs).realized_gains s [] →
      g.cost_basis = g.quantity * g.buy_price ∧
      g.proceeds = g.quantity * g.sell_price ∧
      g.gain = g.proceeds - g.cost_basis := by
  have hp := processTransactions_withFee f txs
  have hp2 : (ProfitLossCalculator.ofTransactions (txs.map (withFee f))).process_transactions.2 =
      (ProfitLossCalculator.ofTransactions txs).process_transactions.2 := hp
  refine ⟨hp, ?_, ?_, ?_⟩
  · simp only [calcRealizedGains, ProfitLossCalculator.calculate_realized_gains]
    rw [hp2]
  · simp only [calcUnrealizedGains, ProfitLossCalculator.calculate_unrealized_gains,
      ProfitLossCalculator.get_current_inventory]
    rw [hp2]
  · intro s g hg
    have hwf : GainsDictWF ((sortByDate txs).foldl processTx ([], [])).2 :=
      foldl_gainsWF (sortByDate txs) ([], []) (by intro p hpm; simp at hpm)
    rw [processTransactions_eq] at hg
    have hgwf := gainsWF_getD _ s hwf g hg
    exact ⟨hgwf.1, hgwf.2.1, hgwf.2.2.1⟩

/-- Claim C10 witness: setting every fee of the boundary run to 7 leaves
the processing result unchanged, and the emitted BTC gain's cost basis,
proceeds and gain come from quantity and unit prices alone. -/
theorem C10_fee_witness :
    processTransactions (boundaryTxs.map (withFee 7)) = processTransactions boundaryTxs ∧
    btcGain365.cost_basis = btcGain365.quantity * btcGain365.buy_price ∧
    btcGain365.proceeds = btcGain365.quantity * btcGain365.sell_price ∧
    btcGain365.gain = btcGain365.proceeds - btcGain365.cost_basis :=
  ⟨(C10_fee_ignored boundaryTxs 7 [] none).1,
   ((C10_fee_ignored boundaryTxs 7 [] none).2.2.2 "BTC" btcGain365
     (by norm_num [processTransactions, ProfitLossCalculator.ofTransactions,
        ProfitLossCalculator.process_transactions, boundaryTxs, btcGain365, mkTx,
        sortByDate, insertByDate, processTx, dictEnsure, dictContains, dictFind,
        dictGetD, dictSet, consumeLots, mkGain, day0, day365, day366, sell_ne_buy,
        sell_ne_transfer_in, buy_ne_sell, buy_ne_transfer_out, btc_ne_ltc,
        ltc_ne_btc])).1,
   ((C10_fee_ignored boundaryTxs 7 [] none).2.2.2 "BTC" btcGain365
     (by norm_num [processTransactions, ProfitLossCalculator.ofTransactions,
        ProfitLossCalculator.process_transactions, boundaryTxs, btcGain365, mkTx,
        sortByDate, insertByDate, processTx, dictEnsure, dictContains, dictFind,
        dictGetD, dictSet, consumeLots, mkGain, day0, day365, day366, sell_ne_buy,
        sell_ne_transfer_in, buy_ne_sell, buy_ne_transfer_out, btc_ne_ltc,
        ltc_ne_btc])).2.1,
   ((C10_fee_ignored boundaryTxs 7 [] none).2.2.2 "BTC" btcGain365
     (by norm_num [processTransactions, ProfitLossCalculator.ofTransactions,
        ProfitLossCalculator.process_transactions, boundaryTxs, btcGain365, mkTx,
        sortByDate, insertByDate, processTx, dictEnsure, dictContains, dictFind,
        dictGetD, dictSet, consumeLots, mkGain, day0, day365, day366, sell_ne_buy,
        sell_ne_transfer_in, buy_ne_sell, buy_ne_transfer_out, btc_ne_ltc,
        ltc_ne_btc])).2.2⟩

end CryptoLedger
